import Mathlib

/-!
# Verification of the `timedelta_isoformat` duration/interval library

Shallow embedding of `src/timedelta_isoformat/__init__.py` (ISO-8601 duration
parsing, formatting, calendar addition, and intervals).

Modelling conventions:
* Python `float` quantities are modelled as exact rationals (`ℚ`).  Decimal
  parsing and the fixed-point rendering `f"{x:.6f}"` are modelled exactly on
  `ℚ`, with Python's round-half-to-even tie rule (`pyRound`).
* Python exceptions are modelled with `Except`: `ValueError`/`AssertionError`
  messages become `PyErr.valueError` strings, `TypeError` becomes
  `PyErr.typeError`.
* The standard-library `datetime` type (an external collaborator of the
  specified code) is modelled as a civil timestamp: a Gregorian date with an
  unbounded year, a microsecond-of-day field, and an optional attached
  timezone.  `timedelta` values are modelled by their total signed microsecond
  count; `tzinfo` objects are modelled by their two observable maps (offset of
  a UTC instant, and the offset `pytz`'s `localize` picks for naive local
  fields).  The concrete `MINYEAR`/`MAXYEAR` bounds of CPython's `datetime`
  are abstracted away (years range over `ℤ`).
* Python generators are consumed eagerly by `dict(...)` in the source, so the
  component generators are modelled as functions producing the whole list,
  with value conversion interleaved in source order.  The only observable
  difference is which of two error messages is reported for inputs that
  contain both an unparsable value and a later scan error; no property below
  depends on that.
-/

/-- The seven measurement units (`DateUnit`, `TimeUnit`, `WeekUnit` in the
source).  The Python `StrEnum` string value is recovered by `unitName`. -/
inductive UnitK
  | years | months | weeks | days | hours | minutes | seconds
deriving DecidableEq, Repr

/-- The `StrEnum` value of a unit, as used in error messages. -/
def unitName : UnitK → String
  | .years => "years"
  | .months => "months"
  | .weeks => "weeks"
  | .days => "days"
  | .hours => "hours"
  | .minutes => "minutes"
  | .seconds => "seconds"

/-- Python exceptions observable from this library. -/
inductive PyErr
  | valueError (msg : String)
  | typeError (msg : String)
deriving DecidableEq, Repr

/-- `_DECIMAL_CHARACTERS = frozenset("0123456789" + ",.")`. -/
def decimalChars : List Char :=
  ['0', '1', '2', '3', '4', '5', '6', '7', '8', '9', ',', '.']

/-- The `Duration` value: seven rational fields, defaulting to 0. -/
structure Duration where
  years : ℚ := 0
  months : ℚ := 0
  weeks : ℚ := 0
  days : ℚ := 0
  hours : ℚ := 0
  minutes : ℚ := 0
  seconds : ℚ := 0
deriving DecidableEq, Repr

/-- Field projection by unit. -/
def Duration.get (d : Duration) : UnitK → ℚ
  | .years => d.years
  | .months => d.months
  | .weeks => d.weeks
  | .days => d.days
  | .hours => d.hours
  | .minutes => d.minutes
  | .seconds => d.seconds

/-- Field replacement by unit (used for `Duration(**dict(measurements))`). -/
def Duration.set (d : Duration) (u : UnitK) (q : ℚ) : Duration :=
  match u with
  | .years => { d with years := q }
  | .months => { d with months := q }
  | .weeks => { d with weeks := q }
  | .days => { d with days := q }
  | .hours => { d with hours := q }
  | .minutes => { d with minutes := q }
  | .seconds => { d with seconds := q }

/-- `Duration.__bool__`: true iff some field is non-zero. -/
def Duration.isZero (d : Duration) : Prop :=
  d.years = 0 ∧ d.months = 0 ∧ d.weeks = 0 ∧ d.days = 0 ∧
    d.hours = 0 ∧ d.minutes = 0 ∧ d.seconds = 0

instance (d : Duration) : Decidable d.isZero := by
  unfold Duration.isZero; infer_instance

/-- `Duration.__lt__`: the disjunction of the seven per-field strict
comparisons (the source compares with `or` across all seven fields). -/
def Duration.lt (a b : Duration) : Prop :=
  a.years < b.years ∨ a.months < b.months ∨ a.weeks < b.weeks ∨
    a.days < b.days ∨ a.hours < b.hours ∨ a.minutes < b.minutes ∨
    a.seconds < b.seconds

instance (a b : Duration) : Decidable (a.lt b) := by
  unfold Duration.lt; infer_instance

/-- The `Duration + Duration` branch of `Duration.__add__`.  Note that the
source builds the result from `years`, `months`, `days`, `hours`, `minutes`
and `seconds` only: the `weeks` keyword is absent, so the result's weeks
field is left at its default `0.0`. -/
def Duration.addDuration (a b : Duration) : Duration :=
  { years := a.years + b.years
    months := a.months + b.months
    days := a.days + b.days
    hours := a.hours + b.hours
    minutes := a.minutes + b.minutes
    seconds := a.seconds + b.seconds }

/-! ## Numeric value extraction (`_to_measurements` internals)

`float("+" + value.replace(",", "."))` on the strings reachable here is
modelled by an exact decimal/scientific-notation parser over `ℚ`. -/

/-- Numeric value of a decimal digit character. -/
def digitVal (c : Char) : ℕ := c.toNat - 48

/-- Value of a most-significant-first digit string. -/
def parseNatD (l : List Char) : ℕ := l.foldl (fun a c => 10 * a + digitVal c) 0

/-- Mantissa of a Python float literal: `digits [. digits]` with at least one
digit present (`1`, `1.5`, `1.` are accepted; `.5` is accepted by `float` but
is always rejected upstream by the leading-`isdigit` assertion). -/
def parseMantissa (l : List Char) : Option ℚ :=
  let ip := l.takeWhile Char.isDigit
  match l.dropWhile Char.isDigit with
  | [] => if ip.isEmpty then none else some (parseNatD ip)
  | '.' :: fp =>
    if fp.all Char.isDigit ∧ (ip ≠ [] ∨ fp ≠ []) then
      some ((parseNatD ip : ℚ) + (parseNatD fp : ℚ) / 10 ^ fp.length)
    else none
  | _ => none

/-- Optionally-signed exponent digits after `e`/`E`. -/
def parseExpPart (l : List Char) : Option ℤ :=
  match l with
  | '+' :: ds => if ds ≠ [] ∧ ds.all Char.isDigit then some (parseNatD ds) else none
  | '-' :: ds => if ds ≠ [] ∧ ds.all Char.isDigit then some (-(parseNatD ds : ℤ)) else none
  | ds => if ds ≠ [] ∧ ds.all Char.isDigit then some (parseNatD ds) else none

/-- `10 ^ z` over `ℚ` for a signed exponent. -/
def tenPowZ (z : ℤ) : ℚ := if 0 ≤ z then (10 : ℚ) ^ z.toNat else 1 / (10 : ℚ) ^ (-z).toNat

/-- Model of CPython `float(...)` restricted to non-negative finite decimal
and scientific-notation literals, which are the only shapes that survive the
leading-digit assertion in `_to_measurements` (underscore digit separators
are not modelled; no reachable property depends on them). -/
def parseDecimal (l : List Char) : Option ℚ :=
  let m := l.takeWhile fun c => !(c == 'e' || c == 'E')
  match l.dropWhile fun c => !(c == 'e' || c == 'E') with
  | [] => parseMantissa m
  | _ :: ex => do
    let q ← parseMantissa m
    let z ← parseExpPart ex
    pure (q * tenPowZ z)

/-- One conversion step of `_to_measurements`: the leading-character
`isdigit` assertion followed by `float("+" + value.replace(",", "."))`,
with the source's error message on any failure. -/
def measureOne (v : List Char) : Except String ℚ :=
  let bad : Except String ℚ :=
    .error ("unable to parse '" ++ String.mk v ++ "' as a positive decimal")
  match v with
  | [] => bad
  | c :: _ =>
    if c.isDigit then
      match parseDecimal (v.map fun ch => if ch = ',' then '.' else ch) with
      | some q => .ok q
      | none => bad
    else bad

/-- Raw component: (raw value string, unit, optional range limit). -/
abbrev RawComp := List Char × UnitK × Option ℕ

/-- The range-violation message of `_to_measurements`. -/
def rangeMsg (u : UnitK) (v : List Char) (lim : ℕ) (inclusive : Bool) : String :=
  unitName u ++ " value of " ++ String.mk v ++ " exceeds range [0.." ++
    toString lim ++ (if inclusive then "]" else ")")

/-- `_to_measurements`: convert raw components to `(unit, quantity)` pairs,
dropping zero quantities and enforcing the unit's range limit (`>` for
inclusive limits, `>=` for exclusive ones; a `None`/`0` limit is skipped). -/
def toMeasurements (inclusive : Bool) : List RawComp → Except String (List (UnitK × ℚ))
  | [] => .ok []
  | (v, u, lim) :: rest => do
    let q ← measureOne v
    let check : Bool :=
      match lim with
      | some l => decide (l ≠ 0 ∧ (if inclusive then (l : ℚ) < q else (l : ℚ) ≤ q))
      | none => false
    if check then
      .error (rangeMsg u v (lim.getD 0) inclusive)
    else do
      let ms ← toMeasurements inclusive rest
      pure (if q = 0 then ms else (u, q) :: ms)

/-! ## Fixed-width parsers (`_from_date`, `_from_time`) -/

/-- `Duration._from_date`: the four positional date shapes, tried in source
order (`YYYY-DDD`, `YYYY-MM-DD`, `YYYYDDD`, `YYYYMMDD`). -/
def fromDate (seg : List Char) : Except String (List RawComp) :=
  match seg with
  | [y1, y2, y3, y4, '-', d1, d2, d3] =>
    .ok [([y1, y2, y3, y4], .years, none), ([d1, d2, d3], .days, some 366)]
  | [y1, y2, y3, y4, '-', m1, m2, '-', d1, d2] =>
    .ok [([y1, y2, y3, y4], .years, none), ([m1, m2], .months, some 12),
      ([d1, d2], .days, some 31)]
  | [y1, y2, y3, y4, d1, d2, d3] =>
    .ok [([y1, y2, y3, y4], .years, none), ([d1, d2, d3], .days, some 366)]
  | [y1, y2, y3, y4, m1, m2, d1, d2] =>
    .ok [([y1, y2, y3, y4], .years, none), ([m1, m2], .months, some 12),
      ([d1, d2], .days, some 31)]
  | _ => .error ("unable to parse '" ++ String.mk seg ++ "' into date components")

/-- `Duration._from_time`: the four positional time shapes, tried in source
order.  The seconds slice of the fraction-bearing shapes is truncated to the
source's fixed slice width (`[6:15]` resp. `[4:13]`: at most six fraction
digits). -/
def fromTime (seg : List Char) : Except String (List RawComp) :=
  match seg with
  | h1 :: h2 :: ':' :: m1 :: m2 :: ':' :: s1 :: s2 :: '.' :: fr =>
    .ok [([h1, h2], .hours, some 24), ([m1, m2], .minutes, some 60),
      (s1 :: s2 :: '.' :: fr.take 6, .seconds, some 60)]
  | [h1, h2, ':', m1, m2, ':', s1, s2] =>
    .ok [([h1, h2], .hours, some 24), ([m1, m2], .minutes, some 60),
      ([s1, s2], .seconds, some 60)]
  | h1 :: h2 :: m1 :: m2 :: s1 :: s2 :: '.' :: fr =>
    .ok [([h1, h2], .hours, some 24), ([m1, m2], .minutes, some 60),
      (s1 :: s2 :: '.' :: fr.take 6, .seconds, some 60)]
  | [h1, h2, m1, m2, s1, s2] =>
    .ok [([h1, h2], .hours, some 24), ([m1, m2], .minutes, some 60),
      ([s1, s2], .seconds, some 60)]
  | _ => .error ("unable to parse '" ++ String.mk seg ++ "' into time components")

/-! ## Designator sweep parser (`_from_designators`)

The Python version holds the not-yet-consumed designators in insertion-order
dicts and consumes them with `popitem()` (which pops the most recently
inserted pair first).  The reversed insertion order of those dict literals is
therefore the scan order, modelled as the lists below, consumed front-first
by `popUntil`. -/

/-- `date_context`, in `popitem` order. -/
def dateCtx : List (Char × UnitK) :=
  [('Y', .years), ('M', .months), ('W', .weeks), ('D', .days)]

/-- `time_context`, in `popitem` order. -/
def timeCtx : List (Char × UnitK) :=
  [('H', .hours), ('M', .minutes), ('S', .seconds)]

/-- The `while context: popitem()` loop: discard leading pairs until the
designator matches, returning the matched unit and the remaining pairs. -/
def popUntil (c : Char) : List (Char × UnitK) → Option (UnitK × List (Char × UnitK))
  | [] => none
  | (d, u) :: rest => if d = c then some (u, rest) else popUntil c rest

/-- The designator sweep fused with measurement conversion, exactly as the
lazily-interleaved generators behave: each completed component is converted
(and a zero quantity dropped) before the scan continues.  `ctx` is the
not-yet-consumed designator list, `inTime` records whether the context has
been switched to `time_context` (the `context is not time_context` identity
test), `found` is `values_found`, and `value` is the pending digit buffer. -/
def sweepGo (ctx : List (Char × UnitK)) (inTime found : Bool) (value : List Char) :
    List Char → Except String (List (UnitK × ℚ))
  | [] => if found then .ok [] else .error "no measurements found"
  | c :: rest =>
    if c ∈ decimalChars then
      sweepGo ctx inTime found (value ++ [c]) rest
    else if c = 'T' ∧ inTime = false then
      if value = [] then
        sweepGo timeCtx true found [] rest
      else
        .error ("expected a unit designator after '" ++ String.mk value ++ "'")
    else
      match popUntil c ctx with
      | none => .error ("unexpected character '" ++ c.toString ++ "'")
      | some (u, ctx') => do
        let q ← measureOne value
        let ms ← sweepGo ctx' inTime true [] rest
        pure (if q = 0 then ms else (u, q) :: ms)

/-- `Duration._from_designators` (composed with its measurement
conversion, see `sweepGo`). -/
def fromDesignators (s : List Char) : Except String (List (UnitK × ℚ)) :=
  sweepGo dateCtx false false [] s

/-! ## Top-level duration parser (`_from_duration`, `fromisoformat`) -/

/-- Whether the final character is an uppercase designator
(`duration[-1].isupper()`; ASCII suffices for every reachable codepath). -/
def lastIsUpper (s : List Char) : Bool :=
  match s.getLast? with
  | some c => c.isUpper
  | none => false

/-- `Duration._from_duration`: route to the designator sweep when the string
ends with an uppercase letter, otherwise split on the first `T` and run the
fixed-width parsers (date components with inclusive limits, time components
with exclusive limits). -/
def fromDuration (s : List Char) : Except String (List (UnitK × ℚ)) :=
  if s.take 1 ≠ ['P'] then
    .error "durations must begin with the character 'P'"
  else if lastIsUpper s then
    fromDesignators (s.drop 1)
  else
    let rest := s.drop 1
    let dateSeg := rest.takeWhile (· ≠ 'T')
    let timeSeg := (rest.dropWhile (· ≠ 'T')).drop 1
    do
      let ms1 ← if dateSeg.isEmpty then pure [] else
        fromDate dateSeg >>= toMeasurements true
      let ms2 ← if timeSeg.isEmpty then pure [] else
        fromTime timeSeg >>= toMeasurements false
      pure (ms1 ++ ms2)

/-- `cls(**dict(measurements))`: later pairs overwrite earlier ones, unset
units keep the default 0. -/
def durationOf (ms : List (UnitK × ℚ)) : Duration :=
  ms.foldl (fun d p => d.set p.1 p.2) {}

/-- `Duration.fromisoformat`. -/
def Duration.fromisoformat (s : String) : Except PyErr Duration :=
  match fromDuration s.data with
  | .ok ms => .ok (durationOf ms)
  | .error msg =>
    .error (.valueError ("could not parse  duration '" ++ s ++ "': " ++ msg))

/-! ## Rounding and decimal rendering (`_format_as_integer_if_possible`) -/

/-- Python `round()` on exact values: round half to even. -/
def pyRound (q : ℚ) : ℤ :=
  let f := ⌊q⌋
  let r := q - f
  if r < 1 / 2 then f
  else if 1 / 2 < r then f + 1
  else if f % 2 = 0 then f else f + 1

/-- Little-endian digit characters of `n` (with `fuel ≥ n` for structural
termination; `fuel = n` always suffices). -/
def digitsRevFuel : ℕ → ℕ → List Char
  | 0, _ => []
  | fuel + 1, n => if n = 0 then [] else Char.ofNat (48 + n % 10) :: digitsRevFuel fuel (n / 10)

/-- Most-significant-first decimal digits of a natural number. -/
def natDigits (n : ℕ) : List Char :=
  if n = 0 then ['0'] else (digitsRevFuel n n).reverse

/-- Exactly `k` most-significant-first digits of `n mod 10^k` (zero-padded
fixed-width rendering). -/
def padDigits : ℕ → ℕ → List Char
  | 0, _ => []
  | k + 1, n => padDigits k (n / 10) ++ [Char.ofNat (48 + n % 10)]

/-- `str.rstrip("0")` on a digit block. -/
def dropTrailingZeros (l : List Char) : List Char :=
  (l.reverse.dropWhile (· == '0')).reverse

/-- `_format_as_integer_if_possible(x)`: `f"{x:.6f}".rstrip("0").rstrip(".")`
on the exact value, as a character list.  The `%.6f` rendering rounds to six
fraction digits (ties to even), prints the integer part followed by the six
fraction digits, and the subsequent strips remove trailing fraction zeros and
a bare trailing point. -/
def formatSixStripped (q : ℚ) : List Char :=
  let n := pyRound (q * 1000000)
  let k := n.natAbs
  let ip := natDigits (k / 1000000)
  let fr := dropTrailingZeros (padDigits 6 (k % 1000000))
  (if n < 0 then ['-'] else []) ++ ip ++ (if fr.isEmpty then [] else '.' :: fr)

/-- One formatted measurement of `Duration.isoformat`: empty when the field
is zero (Python float truthiness), otherwise the rendered value followed by
its designator letter. -/
def piece (q : ℚ) (c : Char) : List Char :=
  if q = 0 then [] else formatSixStripped q ++ [c]

/-- `Duration.isoformat`. -/
def Duration.isoformat (d : Duration) : String :=
  if d.isZero then "P0D"
  else
    String.mk ('P' ::
      (piece d.years 'Y' ++ piece d.months 'M' ++ piece d.weeks 'W' ++ piece d.days 'D' ++
        (if d.hours = 0 ∧ d.minutes = 0 ∧ d.seconds = 0 then []
         else 'T' :: (piece d.hours 'H' ++ piece d.minutes 'M' ++ piece d.seconds 'S'))))

/-- The formatted pieces of a designator context, in context order (the body
of an `isoformat` segment, seen structurally). -/
def piecesOf (v : UnitK → ℚ) : List (Char × UnitK) → List Char
  | [] => []
  | (c, u) :: rest => piece (v u) c ++ piecesOf v rest

/-- The measurements the sweep recovers from those pieces: one `(unit, value)`
pair per non-zero field, in context order. -/
def msOf (v : UnitK → ℚ) : List (Char × UnitK) → List (UnitK × ℚ)
  | [] => []
  | (_, u) :: rest => (if v u = 0 then [] else [(u, v u)]) ++ msOf v rest

/-! ## Civil timestamps (model of the external `datetime`/`pytz` collaborators)

A naive timestamp is a proleptic-Gregorian date (unbounded year) plus a
microsecond-of-day count; an aware timestamp additionally carries its zone
and the fixed UTC offset (in microseconds) attached by `pytz`. -/

/-- A Gregorian calendar date. -/
structure DateYMD where
  year : ℤ
  month : ℤ
  day : ℤ
deriving DecidableEq, Repr

/-- Gregorian leap-year rule. -/
def isLeap (y : ℤ) : Prop := y % 4 = 0 ∧ (y % 100 ≠ 0 ∨ y % 400 = 0)

instance (y : ℤ) : Decidable (isLeap y) := by unfold isLeap; infer_instance

/-- Length of a month. -/
def daysInMonth (y m : ℤ) : ℤ :=
  if m = 2 then (if isLeap y then 29 else 28)
  else if m = 4 ∨ m = 6 ∨ m = 9 ∨ m = 11 then 30
  else 31

/-- Validity of a year/month/day triple (the check performed by the
`datetime` constructor and hence by `datetime.replace`). -/
def validYMD (y m d : ℤ) : Prop :=
  1 ≤ m ∧ m ≤ 12 ∧ 1 ≤ d ∧ d ≤ daysInMonth y m

instance (y m d : ℤ) : Decidable (validYMD y m d) := by
  unfold validYMD; infer_instance

/-- The next calendar day. -/
def succDate (d : DateYMD) : DateYMD :=
  if d.day < daysInMonth d.year d.month then ⟨d.year, d.month, d.day + 1⟩
  else if d.month < 12 then ⟨d.year, d.month + 1, 1⟩
  else ⟨d.year + 1, 1, 1⟩

/-- The previous calendar day. -/
def predDate (d : DateYMD) : DateYMD :=
  if 1 < d.day then ⟨d.year, d.month, d.day - 1⟩
  else if 1 < d.month then ⟨d.year, d.month - 1, daysInMonth d.year (d.month - 1)⟩
  else ⟨d.year - 1, 12, 31⟩

/-- Shift a date by a signed number of calendar days. -/
def addDaysInt (k : ℤ) (d : DateYMD) : DateYMD :=
  if 0 ≤ k then succDate^[k.toNat] d else predDate^[(-k).toNat] d

/-- Microseconds per day. -/
def micsPerDay : ℤ := 86400000000

/-- A naive civil timestamp: date plus microsecond-of-day. -/
structure NaiveDT where
  date : DateYMD
  mics : ℤ
deriving DecidableEq, Repr

/-- Validity of a naive timestamp. -/
def validNaive (n : NaiveDT) : Prop :=
  validYMD n.date.year n.date.month n.date.day ∧ 0 ≤ n.mics ∧ n.mics < micsPerDay

instance (n : NaiveDT) : Decidable (validNaive n) := by
  unfold validNaive; infer_instance

/-- Add a signed microsecond count to a naive timestamp (the arithmetic of
`datetime ± timedelta` on naive values). -/
def addMics (n : NaiveDT) (k : ℤ) : NaiveDT :=
  let tot := n.mics + k
  ⟨addDaysInt (tot.fdiv micsPerDay) n.date, tot.fmod micsPerDay⟩

/-- A timezone (model of a `pytz` zone): the UTC offset as a function of the
UTC instant (`fromutc`/`astimezone`), and the offset chosen by
`localize(naive)` (with its default `is_dst=False` disambiguation) as a
function of the naive local fields. -/
structure Tz where
  utcOffsetAt : NaiveDT → ℤ
  localizeOffset : NaiveDT → ℤ

/-- A civil timestamp: naive fields plus, when aware, the zone and the
attached fixed UTC offset in microseconds. -/
structure DT where
  naive : NaiveDT
  tzOff : Option (Tz × ℤ)

/-- `pytz` `zone.localize(naive)`. -/
def Tz.localize (z : Tz) (n : NaiveDT) : DT := ⟨n, some (z, z.localizeOffset n)⟩

/-- The naive UTC fields of an aware timestamp (its instant). -/
def utcNaive (t : DT) : Option NaiveDT :=
  t.tzOff.map fun zo => addMics t.naive (-zo.2)

/-- `datetime.replace(year=y)`: re-validates the date. -/
def replaceYear (t : DT) (y : ℤ) : Except PyErr DT :=
  if ¬ (1 ≤ t.naive.date.month ∧ t.naive.date.month ≤ 12) then
    .error (.valueError "month must be in 1..12")
  else if ¬ (1 ≤ t.naive.date.day ∧ t.naive.date.day ≤ daysInMonth y t.naive.date.month) then
    .error (.valueError "day is out of range for month")
  else
    .ok ⟨⟨⟨y, t.naive.date.month, t.naive.date.day⟩, t.naive.mics⟩, t.tzOff⟩

/-- `datetime.replace(month=m)`: re-validates the date. -/
def replaceMonth (t : DT) (m : ℤ) : Except PyErr DT :=
  if ¬ (1 ≤ m ∧ m ≤ 12) then
    .error (.valueError "month must be in 1..12")
  else if ¬ (1 ≤ t.naive.date.day ∧ t.naive.date.day ≤ daysInMonth t.naive.date.year m) then
    .error (.valueError "day is out of range for month")
  else
    .ok ⟨⟨⟨t.naive.date.year, m, t.naive.date.day⟩, t.naive.mics⟩, t.tzOff⟩

/-- Microseconds of `timedelta(days=x)` for an exact `x` (normalisation plus
a single round-half-even at microsecond resolution). -/
def tdFromDays (x : ℚ) : ℤ := pyRound (x * 86400000000)

/-- Microseconds of `timedelta(hours=h, minutes=m, seconds=s)`. -/
def tdFromHMS (h m s : ℚ) : ℤ := pyRound ((h * 3600 + m * 60 + s) * 1000000)

/-- The zero-indexed target month of the year/month step of
`Duration.__add__` (`new_zero_indexed_month` in the source). -/
def newZeroMonth (d : Duration) (t : DT) : ℤ :=
  t.naive.date.month - 1 + pyRound d.months

/-- The target year of the year/month step (`new_year` in the source;
Python `//` is floor division). -/
def newYear (d : Duration) (t : DT) : ℤ :=
  t.naive.date.year + pyRound d.years + (newZeroMonth d t).fdiv 12

/-- The one-indexed target month (`(new_zero_indexed_month % 12) + 1`). -/
def newMonth (d : Duration) (t : DT) : ℤ :=
  (newZeroMonth d t).fmod 12 + 1

/-- The day step of `Duration.__add__`: strip the timezone, add
`timedelta(days=self.days + 7.0 * self.weeks)` to the naive fields, then
re-attach via `tzinfo.localize` when the input was aware. -/
def dayStep (d : Duration) (t : DT) : DT :=
  let naive2 := addMics t.naive (tdFromDays (d.days + 7 * d.weeks))
  match t.tzOff with
  | none => ⟨naive2, none⟩
  | some (z, _) => z.localize naive2

/-- The time step of `Duration.__add__`: convert to UTC when aware, add
`timedelta(hours, minutes, seconds)` as flat elapsed time, convert back. -/
def timeStep (d : Duration) (t : DT) : DT :=
  let delta := tdFromHMS d.hours d.minutes d.seconds
  match t.tzOff with
  | none => ⟨addMics t.naive delta, none⟩
  | some (z, off) =>
    let u2 := addMics (addMics t.naive (-off)) delta
    let off2 := z.utcOffsetAt u2
    ⟨addMics u2 off2, some (z, off2)⟩

/-- The `datetime` branch of `Duration.__add__` (and hence of `__radd__`):
reject fractional months, replace the year, replace the month, add the
day/week offset to the naive local fields, then add the sub-day offset as
elapsed UTC time. -/
def Duration.addDatetime (self : Duration) (other : DT) : Except PyErr DT :=
  if self.months - ⌊self.months⌋ ≠ 0 then
    .error (.valueError "fractional months are not supported")
  else do
    let nzm : ℤ := other.naive.date.month - 1 + pyRound self.months
    let ny : ℤ := other.naive.date.year + pyRound self.years + nzm.fdiv 12
    let t1 ← replaceYear other ny
    let t2 ← replaceMonth t1 (nzm.fmod 12 + 1)
    let naive2 := addMics t2.naive (tdFromDays (self.days + 7 * self.weeks))
    let t3 : DT :=
      match t2.tzOff with
      | none => ⟨naive2, none⟩
      | some (z, _) => z.localize naive2
    let delta := tdFromHMS self.hours self.minutes self.seconds
    match t3.tzOff with
    | none => pure ⟨addMics t3.naive delta, none⟩
    | some (z, off) =>
      let u2 := addMics (addMics t3.naive (-off)) delta
      let off2 := z.utcOffsetAt u2
      pure ⟨addMics u2 off2, some (z, off2)⟩

/-! ## Interval -/

/-- Day number of a date (days since 1970-01-01, proleptic Gregorian); used
only to take differences of civil timestamps (`datetime - datetime`). -/
def dayNumber (d : DateYMD) : ℤ :=
  let y := if d.month ≤ 2 then d.year - 1 else d.year
  let era := Int.fdiv y 400
  let yoe := y - era * 400
  let mp := Int.fmod (d.month + 9) 12
  let doy := Int.fdiv (153 * mp + 2) 5 + d.day - 1
  let doe := yoe * 365 + Int.fdiv yoe 4 - Int.fdiv yoe 100 + doy
  era * 146097 + doe - 719468

/-- `datetime - datetime` as a signed microsecond count (a `timedelta`);
mixing naive and aware operands is a `TypeError`. -/
def dtSubDT (a b : DT) : Except PyErr ℤ :=
  match a.tzOff, b.tzOff with
  | none, none =>
    .ok ((dayNumber a.naive.date - dayNumber b.naive.date) * micsPerDay +
      (a.naive.mics - b.naive.mics))
  | some (_, offa), some (_, offb) =>
    .ok ((dayNumber a.naive.date - dayNumber b.naive.date) * micsPerDay +
      ((a.naive.mics - offa) - (b.naive.mics - offb)))
  | _, _ => .error (.typeError "can't subtract offset-naive and offset-aware datetimes")

/-- `datetime - Duration`: `datetime.__sub__` rejects the non-`timedelta`
operand and `Duration` defines neither `__sub__` handling for datetimes nor
`__rsub__`, so Python raises `TypeError`. -/
def dtSubDuration (_a : DT) (_d : Duration) : Except PyErr DT :=
  .error (.typeError "unsupported operand type(s) for -: 'datetime.datetime' and 'Duration'")

/-- `Duration.from_timedelta`: `Duration(days=td.days, seconds=td.seconds +
td.microseconds / 1000000.0)` for a `timedelta` of `mics` microseconds
(`timedelta` normalises so that `0 ≤ seconds < 86400`, days carries the
sign). -/
def fromTimedelta (mics : ℤ) : Duration :=
  let d := mics.fdiv micsPerDay
  let rem := mics.fmod micsPerDay
  { days := (d : ℚ), seconds := ((rem.fdiv 1000000 : ℤ) : ℚ) + ((rem.fmod 1000000 : ℤ) : ℚ) / 1000000 }

/-- `datetime.__eq__`: naive values compare by fields, aware values compare
by instant, mixed comparisons are unequal. -/
def dtEq (a b : DT) : Prop :=
  match a.tzOff, b.tzOff with
  | none, none => a.naive = b.naive
  | some (_, offa), some (_, offb) => addMics a.naive (-offa) = addMics b.naive (-offb)
  | _, _ => False

instance (a b : DT) : Decidable (dtEq a b) := by
  unfold dtEq
  rcases a.tzOff with _ | ⟨z, o⟩ <;> rcases b.tzOff with _ | ⟨z', o'⟩ <;>
    simp only [] <;> infer_instance

/-- The source's `Interval` triple (named `TimeInterval` here: `Interval` is
taken by Mathlib, and `stop` is the source's `end` field, `end` being
reserved in Lean). -/
structure TimeInterval where
  start : DT
  stop : DT
  duration : Duration

/-- The final consistency check of `Interval.__init__`
(`self.start + self.duration != self.end`); the message's interpolated
reprs are elided. -/
def TimeInterval.check (i : TimeInterval) : Except PyErr TimeInterval := do
  let e ← i.duration.addDatetime i.start
  if dtEq e i.stop then pure i
  else .error (.valueError "Start, duration and end do not match up")

/-- `Interval.__init__`: fill in the missing member of
(start, duration, end), then re-check `start + duration == end`. -/
def TimeInterval.init (start : Option DT) (stop : Option DT) (dur : Option Duration) :
    Except PyErr TimeInterval :=
  match start, dur, stop with
  | some s, none, some e => do
    let td ← dtSubDT e s
    TimeInterval.check ⟨s, e, fromTimedelta td⟩
  | none, some d, some e => do
    let s ← dtSubDuration e d
    TimeInterval.check ⟨s, e, d⟩
  | some s, some d, none => do
    let e ← d.addDatetime s
    TimeInterval.check ⟨s, e, d⟩
  | some s, some d, some e => TimeInterval.check ⟨s, e, d⟩
  | _, _, _ => .error (.valueError "Interval takes at least two of start, duration and end")

/-- Model of the external `datetime.fromisoformat` on the timestamp shapes
exercised here (`YYYY-MM-DD` and `YYYY-MM-DDTHH:MM:SS`, naive). -/
def dtFromIso (s : String) : Except PyErr DT :=
  let bad : Except PyErr DT :=
    .error (.valueError ("Invalid isoformat string: '" ++ s ++ "'"))
  match s.data with
  | [y1, y2, y3, y4, '-', mo1, mo2, '-', d1, d2] =>
    if [y1, y2, y3, y4, mo1, mo2, d1, d2].all Char.isDigit ∧
        validYMD (parseNatD [y1, y2, y3, y4]) (parseNatD [mo1, mo2]) (parseNatD [d1, d2]) then
      .ok ⟨⟨⟨parseNatD [y1, y2, y3, y4], parseNatD [mo1, mo2], parseNatD [d1, d2]⟩, 0⟩, none⟩
    else bad
  | [y1, y2, y3, y4, '-', mo1, mo2, '-', d1, d2, 'T', h1, h2, ':', mi1, mi2, ':', s1, s2] =>
    if [y1, y2, y3, y4, mo1, mo2, d1, d2, h1, h2, mi1, mi2, s1, s2].all Char.isDigit ∧
        validYMD (parseNatD [y1, y2, y3, y4]) (parseNatD [mo1, mo2]) (parseNatD [d1, d2]) ∧
        parseNatD [h1, h2] < 24 ∧ parseNatD [mi1, mi2] < 60 ∧ parseNatD [s1, s2] < 60 then
      .ok ⟨⟨⟨parseNatD [y1, y2, y3, y4], parseNatD [mo1, mo2], parseNatD [d1, d2]⟩,
        ((parseNatD [h1, h2] * 60 + parseNatD [mi1, mi2]) * 60 + parseNatD [s1, s2] : ℕ) * 1000000⟩, none⟩
    else bad
  | _ => bad

/-- Model of Python `str.split(sep)` for a single-character separator. -/
def splitChar (sep : Char) : List Char → List (List Char)
  | [] => [[]]
  | x :: xs =>
    match splitChar sep xs with
    | [] => [[]]
    | y :: ys => if x = sep then [] :: y :: ys else (x :: y) :: ys

/-- `TimeInterval.fromisoformat` (`interval.split("/")` modelled by
`splitChar`; `startswith("P")` by a first-character test as in
`fromDuration`). -/
def TimeInterval.fromisoformat (s : String) : Except PyErr TimeInterval :=
  if '/' ∉ s.data then
    .error (.valueError "Interval must contain a slash")
  else
    match splitChar '/' s.data with
    | [a, b] =>
      if a.take 1 = ['P'] ∧ b.take 1 = ['P'] then
        .error (.valueError "Interval cannot have two durations")
      else if a.take 1 = ['P'] then do
        let dur ← Duration.fromisoformat (String.mk a)
        let e ← dtFromIso (String.mk b)
        TimeInterval.init none (some e) (some dur)
      else if b.take 1 = ['P'] then do
        let dur ← Duration.fromisoformat (String.mk b)
        let s' ← dtFromIso (String.mk a)
        TimeInterval.init (some s') none (some dur)
      else do
        let s' ← dtFromIso (String.mk a)
        let e ← dtFromIso (String.mk b)
        TimeInterval.init (some s') (some e) none
    | _ => .error (.valueError "too many values to unpack (expected 2)")

/-! ## Helper lemmas -/

@[simp] theorem digitVal_c0 : digitVal '0' = 0 := rfl
@[simp] theorem digitVal_c1 : digitVal '1' = 1 := rfl
@[simp] theorem digitVal_c2 : digitVal '2' = 2 := rfl
@[simp] theorem digitVal_c3 : digitVal '3' = 3 := rfl
@[simp] theorem digitVal_c4 : digitVal '4' = 4 := rfl
@[simp] theorem digitVal_c5 : digitVal '5' = 5 := rfl
@[simp] theorem digitVal_c6 : digitVal '6' = 6 := rfl
@[simp] theorem digitVal_c7 : digitVal '7' = 7 := rfl
@[simp] theorem digitVal_c8 : digitVal '8' = 8 := rfl
@[simp] theorem digitVal_c9 : digitVal '9' = 9 := rfl

theorem micsPerDay_pos : (0 : ℤ) < micsPerDay := by norm_num [micsPerDay]

/-- `pyRound` is the identity on integers. -/
theorem pyRound_intCast (z : ℤ) : pyRound (z : ℚ) = z := by
  simp [pyRound]

/-- A rational is an integer iff subtracting its floor gives zero. -/
theorem den_one_iff_fract_zero (q : ℚ) : q.den = 1 ↔ q - ⌊q⌋ = 0 := by
  constructor
  · intro h
    have hq : ((q.num : ℚ)) = q := (Rat.den_eq_one_iff q).mp h
    rw [← hq]
    simp
  · intro h
    have hq : q = (⌊q⌋ : ℚ) := by linarith
    rw [hq]
    exact Rat.den_intCast _

/-- Characterise `addMics` through any quotient/remainder decomposition. -/
theorem addMics_eq (n : NaiveDT) (k q r : ℤ) (h : n.mics + k = micsPerDay * q + r)
    (h0 : 0 ≤ r) (h1 : r < micsPerDay) :
    addMics n k = ⟨addDaysInt q n.date, r⟩ := by
  have hb : (0 : ℤ) ≤ micsPerDay := le_of_lt micsPerDay_pos
  have hq : (n.mics + k).fdiv micsPerDay = q := by
    rw [Int.fdiv_eq_ediv _ hb]
    simp only [micsPerDay] at h h1 ⊢
    omega
  have hr : (n.mics + k).fmod micsPerDay = r := by
    rw [Int.fmod_eq_emod _ hb]
    simp only [micsPerDay] at h h1 ⊢
    omega
  simp only [addMics, hq, hr]

/-- `addMics` with no day carry. -/
theorem addMics_small (n : NaiveDT) (k : ℤ) (h0 : 0 ≤ n.mics + k)
    (h1 : n.mics + k < micsPerDay) : addMics n k = ⟨n.date, n.mics + k⟩ := by
  have := addMics_eq n k 0 (n.mics + k) (by ring) h0 h1
  simpa [addDaysInt] using this

/-- `addMics` carrying exactly one day. -/
theorem addMics_day1 (n : NaiveDT) (k : ℤ) (h0 : micsPerDay ≤ n.mics + k)
    (h1 : n.mics + k < 2 * micsPerDay) :
    addMics n k = ⟨succDate n.date, n.mics + k - micsPerDay⟩ := by
  have := addMics_eq n k 1 (n.mics + k - micsPerDay) (by ring) (by omega) (by omega)
  simpa [addDaysInt] using this

/-! ## Claim theorems -/

/-- Claim C10: `Duration.__lt__` is the disjunction of the seven per-field
strict comparisons, hence not asymmetric: with `a = Duration(years=1)` and
`b = Duration(seconds=1)` both `a < b` and `b < a` hold, so `<` is not even a
partial order on durations. -/
theorem claim_C10_lt_not_asymmetric :
    Duration.lt { years := 1 } { seconds := 1 } ∧
    Duration.lt { seconds := 1 } { years := 1 } ∧
    ¬ (∀ a b : Duration, Duration.lt a b → ¬ Duration.lt b a) := by
  refine ⟨?_, ?_, ?_⟩
  · simp [Duration.lt]
  · simp [Duration.lt]
  · intro h
    exact h { years := 1 } { seconds := 1 } (by simp [Duration.lt]) (by simp [Duration.lt])

/-- Claim C6 (code bug): the `Duration + Duration` branch of
`Duration.__add__` omits the `weeks` keyword, so the weeks fields are
dropped instead of summed: `Duration(weeks=1) + Duration(weeks=1)` has weeks
`0`, not `2`. -/
theorem claim_C6_weeks_dropped :
    (Duration.addDuration { weeks := 1 } { weeks := 1 }).weeks = 0 ∧
    (Duration.addDuration { weeks := 1 } { weeks := 1 }).weeks ≠
      ({ weeks := 1 } : Duration).weeks + ({ weeks := 1 } : Duration).weeks := by
  constructor
  · simp [Duration.addDuration]
  · simp [Duration.addDuration]
    norm_num

/-- `datetime.replace(year=...)` yields either a value or one of its two
range errors. -/
theorem replaceYear_cases (t : DT) (y : ℤ) :
    (∃ t', replaceYear t y = .ok t') ∨
      replaceYear t y = .error (.valueError "month must be in 1..12") ∨
      replaceYear t y = .error (.valueError "day is out of range for month") := by
  unfold replaceYear
  split_ifs <;> simp

/-- `datetime.replace(month=...)` yields either a value or one of its two
range errors. -/
theorem replaceMonth_cases (t : DT) (m : ℤ) :
    (∃ t', replaceMonth t m = .ok t') ∨
      replaceMonth t m = .error (.valueError "month must be in 1..12") ∨
      replaceMonth t m = .error (.valueError "day is out of range for month") := by
  unfold replaceMonth
  split_ifs <;> simp

/-- Claim C7: calendar addition fails with the `fractional months` error
exactly when the months field is non-integral; integral months never trigger
it. -/
theorem claim_C7_fractional_months (d : Duration) (t : DT) :
    d.addDatetime t = .error (.valueError "fractional months are not supported") ↔
      d.months.den ≠ 1 := by
  rw [Ne, not_congr (den_one_iff_fract_zero d.months)]
  by_cases hf : d.months - ⌊d.months⌋ = 0
  · simp only [Duration.addDatetime, hf, ne_eq, not_true_eq_false, if_false, iff_false]
    rcases replaceYear_cases t
        (t.naive.date.year + pyRound d.years + (t.naive.date.month - 1 + pyRound d.months).fdiv 12)
      with ⟨t1, h1⟩ | h1 | h1
    · rw [h1]
      simp only [Bind.bind, Except.bind]
      rcases replaceMonth_cases t1 ((t.naive.date.month - 1 + pyRound d.months).fmod 12 + 1)
        with ⟨t2, h2⟩ | h2 | h2 <;> rw [h2]
      · rcases h3 : t2.tzOff with _ | ⟨z, off⟩ <;> simp [h3, Tz.localize, Pure.pure, Except.pure]
      · simp
      · simp
    · rw [h1]
      simp [Bind.bind, Except.bind]
    · rw [h1]
      simp [Bind.bind, Except.bind]
  · simp only [Duration.addDatetime, if_pos hf, ne_eq, hf, not_false_eq_true, iff_true]
    simp

/-- `Duration.__add__` on a timestamp is the sequential composition of the
fractional-months guard, the year replacement, the month replacement, the
day step and the time step. -/
theorem addDatetime_steps (d : Duration) (t : DT) :
    d.addDatetime t =
      if d.months - ⌊d.months⌋ ≠ 0 then
        .error (.valueError "fractional months are not supported")
      else
        (do
          let t1 ← replaceYear t (newYear d t)
          let t2 ← replaceMonth t1 (newMonth d t)
          pure (timeStep d (dayStep d t2))) := by
  simp only [Duration.addDatetime, newYear, newMonth, newZeroMonth]
  split_ifs with hf
  · rfl
  · rcases replaceYear_cases t
        (t.naive.date.year + pyRound d.years + (t.naive.date.month - 1 + pyRound d.months).fdiv 12)
      with ⟨t1, h1⟩ | h1 | h1 <;> rw [h1] <;>
      simp only [Bind.bind, Except.bind, Functor.map, Except.map]
    rcases replaceMonth_cases t1 ((t.naive.date.month - 1 + pyRound d.months).fmod 12 + 1)
      with ⟨t2, h2⟩ | h2 | h2 <;> rw [h2]
    rcases h3 : t2.tzOff with _ | ⟨z, off⟩ <;>
      simp [h3, dayStep, timeStep, Tz.localize, Pure.pure, Except.pure]

/-- Claim C2: calendar addition applies components in the fixed order year,
then month, then day, then time, each step operating on the previous step's
result (`replaceYear`, then `replaceMonth`, then `dayStep`, then
`timeStep`); in particular the month is applied before the day, so
`2000-02-29 + P1M1D = 2000-03-30`. -/
theorem claim_C2_step_order :
    (∀ (d : Duration) (t : DT),
      d.addDatetime t =
        if d.months - ⌊d.months⌋ ≠ 0 then
          .error (.valueError "fractional months are not supported")
        else do
          let t1 ← replaceYear t (newYear d t)
          let t2 ← replaceMonth t1 (newMonth d t)
          pure (timeStep d (dayStep d t2))) ∧
    Duration.addDatetime { months := 1, days := 1 } ⟨⟨⟨2000, 2, 29⟩, 0⟩, none⟩ =
      .ok ⟨⟨⟨2000, 3, 30⟩, 0⟩, none⟩ := by
  constructor
  · exact addDatetime_steps
  · have hY : replaceYear ⟨⟨⟨2000, 2, 29⟩, 0⟩, none⟩ 2000 = .ok ⟨⟨⟨2000, 2, 29⟩, 0⟩, none⟩ := by
      simp [replaceYear, daysInMonth, isLeap]
    have hM : replaceMonth ⟨⟨⟨2000, 2, 29⟩, 0⟩, none⟩ 3 = .ok ⟨⟨⟨2000, 3, 29⟩, 0⟩, none⟩ := by
      norm_num [replaceMonth, daysInMonth]
    have hD : tdFromDays (1 : ℚ) = 86400000000 := by
      norm_num [tdFromDays, pyRound]
    have hA : addMics ⟨⟨2000, 3, 29⟩, 0⟩ 86400000000 = ⟨⟨2000, 3, 30⟩, 0⟩ := by
      rw [addMics_day1 _ _ (by norm_num [micsPerDay]) (by norm_num [micsPerDay])]
      norm_num [succDate, daysInMonth, micsPerDay]
    have hT : tdFromHMS (0 : ℚ) 0 0 = 0 := by
      norm_num [tdFromHMS, pyRound]
    have hZ : addMics ⟨⟨2000, 3, 30⟩, 0⟩ 0 = ⟨⟨2000, 3, 30⟩, 0⟩ := by
      rw [addMics_small _ _ (by norm_num) (by norm_num [micsPerDay])]
      norm_num
    have h1 : pyRound (1 : ℚ) = 1 := by norm_num [pyRound]
    have h0 : pyRound (0 : ℚ) = 0 := by norm_num [pyRound]
    have hfd : Int.fdiv 2 12 = 0 := by decide
    have hfm : Int.fmod 2 12 = 2 := by decide
    simp only [Duration.addDatetime]
    norm_num [h1, h0, hfd, hfm, hY, hM, hD, hA, hT, hZ,
      Bind.bind, Except.bind, Pure.pure, Except.pure]


/-- `replaceYear` succeeds when the month is in range and the day fits the
target year's month. -/
theorem replaceYear_ok (t : DT) (y : ℤ)
    (hm : 1 ≤ t.naive.date.month ∧ t.naive.date.month ≤ 12)
    (hd : 1 ≤ t.naive.date.day ∧ t.naive.date.day ≤ daysInMonth y t.naive.date.month) :
    replaceYear t y = .ok ⟨⟨⟨y, t.naive.date.month, t.naive.date.day⟩, t.naive.mics⟩, t.tzOff⟩ := by
  unfold replaceYear
  rw [if_neg (by tauto), if_neg (by tauto)]

/-- `replaceYear` fails with the month-range error when the month is out of
range. -/
theorem replaceYear_err_month (t : DT) (y : ℤ)
    (hm : ¬ (1 ≤ t.naive.date.month ∧ t.naive.date.month ≤ 12)) :
    replaceYear t y = .error (.valueError "month must be in 1..12") := by
  unfold replaceYear
  rw [if_pos hm]

/-- `replaceYear` fails with the day-out-of-range error when the month is in
range but the day does not exist in the target year. -/
theorem replaceYear_err_day (t : DT) (y : ℤ)
    (hm : 1 ≤ t.naive.date.month ∧ t.naive.date.month ≤ 12)
    (hd : ¬ (1 ≤ t.naive.date.day ∧ t.naive.date.day ≤ daysInMonth y t.naive.date.month)) :
    replaceYear t y = .error (.valueError "day is out of range for month") := by
  unfold replaceYear
  rw [if_neg (by tauto), if_pos hd]

/-- `replaceMonth` succeeds when the new month is in range and the day fits
it. -/
theorem replaceMonth_ok (t : DT) (m : ℤ)
    (hm : 1 ≤ m ∧ m ≤ 12)
    (hd : 1 ≤ t.naive.date.day ∧ t.naive.date.day ≤ daysInMonth t.naive.date.year m) :
    replaceMonth t m = .ok ⟨⟨⟨t.naive.date.year, m, t.naive.date.day⟩, t.naive.mics⟩, t.tzOff⟩ := by
  unfold replaceMonth
  rw [if_neg (by tauto), if_neg (by tauto)]

/-- `replaceMonth` fails with the day-out-of-range error when the new month
is in range but the day does not fit it. -/
theorem replaceMonth_err_day (t : DT) (m : ℤ)
    (hm : 1 ≤ m ∧ m ≤ 12)
    (hd : ¬ (1 ≤ t.naive.date.day ∧ t.naive.date.day ≤ daysInMonth t.naive.date.year m)) :
    replaceMonth t m = .error (.valueError "day is out of range for month") := by
  unfold replaceMonth
  rw [if_neg (by tauto), if_pos hd]

/-- The target month of the year/month step is always in `1..12`. -/
theorem newMonth_range (d : Duration) (t : DT) :
    1 ≤ newMonth d t ∧ newMonth d t ≤ 12 := by
  unfold newMonth
  rw [Int.fmod_eq_emod _ (by norm_num)]
  omega

/-- Claim C8 (amended): calendar addition fails with the day-out-of-range
error exactly when the months field is integral, the original month is in
range, and either the original month/day pair does not exist in the target
year (the year is replaced first) or the day does not exist in the target
month of the target year; in particular `2000-01-31 + P1M` fails with that
error while `2000-01-31 + P2M = 2000-03-31`. -/
theorem claim_C8_day_out_of_range :
    (∀ (d : Duration) (t : DT),
      d.addDatetime t = .error (.valueError "day is out of range for month") ↔
        (d.months.den = 1 ∧ 1 ≤ t.naive.date.month ∧ t.naive.date.month ≤ 12 ∧
          (¬ validYMD (newYear d t) t.naive.date.month t.naive.date.day ∨
           ¬ validYMD (newYear d t) (newMonth d t) t.naive.date.day))) ∧
    Duration.addDatetime { months := 1 } ⟨⟨⟨2000, 1, 31⟩, 0⟩, none⟩ =
      .error (.valueError "day is out of range for month") ∧
    Duration.addDatetime { months := 2 } ⟨⟨⟨2000, 1, 31⟩, 0⟩, none⟩ =
      .ok ⟨⟨⟨2000, 3, 31⟩, 0⟩, none⟩ := by
  refine ⟨?_, ?_, ?_⟩
  · intro d t
    rw [addDatetime_steps]
    by_cases hf : d.months - ⌊d.months⌋ = 0
    case neg =>
      have hden : d.months.den ≠ 1 := fun h => hf ((den_one_iff_fract_zero d.months).mp h)
      rw [if_pos hf]
      simp [hden]
    case pos =>
      have hden : d.months.den = 1 := (den_one_iff_fract_zero d.months).mpr hf
      rw [if_neg (by simpa using hf)]
      by_cases hA : 1 ≤ t.naive.date.month ∧ t.naive.date.month ≤ 12
      · by_cases hB : 1 ≤ t.naive.date.day ∧
            t.naive.date.day ≤ daysInMonth (newYear d t) t.naive.date.month
        · rw [replaceYear_ok t _ hA hB]
          simp only [Bind.bind, Except.bind]
          by_cases hC : 1 ≤ t.naive.date.day ∧
              t.naive.date.day ≤ daysInMonth (newYear d t) (newMonth d t)
          · rw [replaceMonth_ok _ _ (newMonth_range d t) (by exact hC)]
            simp only [Pure.pure, Except.pure]
            constructor
            · intro h
              exact absurd h (by simp)
            · have hmr := newMonth_range d t
              rintro ⟨-, -, -, h | h⟩
              · exact absurd (show validYMD (newYear d t) t.naive.date.month t.naive.date.day by
                  simp only [validYMD]; tauto) h
              · exact absurd (show validYMD (newYear d t) (newMonth d t) t.naive.date.day by
                  simp only [validYMD]; tauto) h
          · rw [replaceMonth_err_day _ _ (newMonth_range d t) (by exact hC)]
            simp only [true_iff, hden, true_and]
            refine ⟨hA.1, hA.2, Or.inr ?_⟩
            simp only [validYMD]
            tauto
        · rw [replaceYear_err_day t _ hA hB]
          simp only [Bind.bind, Except.bind, true_iff, hden, true_and]
          refine ⟨hA.1, hA.2, Or.inl ?_⟩
          simp only [validYMD]
          tauto
      · rw [replaceYear_err_month t _ hA]
        simp only [Bind.bind, Except.bind]
        constructor
        · intro h
          exact absurd h (by simp)
        · rintro ⟨-, h1, h2, -⟩
          exact absurd ⟨h1, h2⟩ hA
  · have hfd : Int.fdiv 1 12 = 0 := by decide
    have hfm : Int.fmod 1 12 = 1 := by decide
    have h1 : pyRound (1 : ℚ) = 1 := by norm_num [pyRound]
    have h0 : pyRound (0 : ℚ) = 0 := by norm_num [pyRound]
    simp only [Duration.addDatetime]
    norm_num [h1, h0, hfd, hfm, replaceYear, replaceMonth, daysInMonth, isLeap,
      Bind.bind, Except.bind, Pure.pure, Except.pure]
  · have hfd : Int.fdiv 2 12 = 0 := by decide
    have hfm : Int.fmod 2 12 = 2 := by decide
    have h2 : pyRound (2 : ℚ) = 2 := by norm_num [pyRound]
    have h0 : pyRound (0 : ℚ) = 0 := by norm_num [pyRound]
    have hT : tdFromHMS (0 : ℚ) 0 0 = 0 := by norm_num [tdFromHMS, pyRound]
    have hD : tdFromDays (0 : ℚ) = 0 := by norm_num [tdFromDays, pyRound]
    have hZ : addMics ⟨⟨2000, 3, 31⟩, 0⟩ 0 = ⟨⟨2000, 3, 31⟩, 0⟩ := by
      rw [addMics_small _ _ (by norm_num) (by norm_num [micsPerDay])]
      norm_num
    simp only [Duration.addDatetime]
    norm_num [h2, h0, hfd, hfm, hT, hD, hZ, replaceYear, replaceMonth, daysInMonth, isLeap,
      Bind.bind, Except.bind, Pure.pure, Except.pure]

/-- Claim C8, counterexample to the claim as stated: `2000-02-29 + P1Y1M`
fails with the day-out-of-range error even though the resulting month/day
combination (2001-03-29) does exist; the failure comes from the intermediate
year replacement producing 2001-02-29. -/
theorem claim_C8_counterexample :
    Duration.addDatetime { years := 1, months := 1 } ⟨⟨⟨2000, 2, 29⟩, 0⟩, none⟩ =
      .error (.valueError "day is out of range for month") ∧
    validYMD 2001 3 29 := by
  constructor
  · have hfd : Int.fdiv 2 12 = 0 := by decide
    have h1 : pyRound (1 : ℚ) = 1 := by norm_num [pyRound]
    simp only [Duration.addDatetime]
    norm_num [h1, hfd, replaceYear, replaceMonth, daysInMonth, isLeap,
      Bind.bind, Except.bind, Pure.pure, Except.pure]
  · decide

/-- Claim C9: every successfully parsed fixed-width time segment carries the
limits 24/60/60 for hours/minutes/seconds; exclusive-limit violations fail
with the half-open range message naming the unit; and in particular
`parse("PT24:00:00")` fails naming `hours` and the bound `[0..24)`. -/
theorem claim_C9_time_bounds :
    (∀ (seg : List Char) (comps : List RawComp),
      fromTime seg = .ok comps →
        ∃ v1 v2 v3, comps =
          [(v1, .hours, some 24), (v2, .minutes, some 60), (v3, .seconds, some 60)]) ∧
    (∀ (v : List Char) (u : UnitK) (lim : ℕ) (q : ℚ) (rest : List RawComp),
      measureOne v = .ok q → lim ≠ 0 → (lim : ℚ) ≤ q →
        toMeasurements false ((v, u, some lim) :: rest) =
          .error (unitName u ++ " value of " ++ String.mk v ++ " exceeds range [0.." ++
            toString lim ++ ")")) ∧
    Duration.fromisoformat "PT24:00:00" =
      .error (.valueError
        "could not parse  duration 'PT24:00:00': hours value of 24 exceeds range [0..24)") := by
  refine ⟨?_, ?_, ?_⟩
  · intro seg comps h
    unfold fromTime at h
    split at h <;> first
      | exact ⟨_, _, _, (Except.ok.inj h).symm⟩
      | simp_all
  · intro v u lim q rest h hlim hle
    unfold toMeasurements
    rw [h]
    simp [Bind.bind, Except.bind, hlim, hle, rangeMsg]
  · norm_num +decide [Duration.fromisoformat, fromDuration, lastIsUpper, fromTime,
      toMeasurements, measureOne, parseDecimal, parseMantissa, parseNatD, rangeMsg, unitName,
      Char.isDigit, List.takeWhile, List.dropWhile, decimalChars,
      beq_iff_eq, Bool.or_eq_true, Bool.not_eq_true',
      Bind.bind, Except.bind, Pure.pure, Except.pure]
    have hts : toString (24 : ℕ) = "24" := rfl
    simp [hts]

/-- Witness for claim C9 at concrete inputs. -/
theorem claim_C9_time_bounds_witness :
    toMeasurements false [(['6', '0'], UnitK.minutes, some 60)] =
      .error "minutes value of 60 exceeds range [0..60)" ∧
    ∃ v1 v2 v3,
      ([(['2', '4'], UnitK.hours, some 24), (['0', '0'], UnitK.minutes, some 60),
        (['0', '0'], UnitK.seconds, some 60)] : List RawComp) =
        [(v1, UnitK.hours, some 24), (v2, UnitK.minutes, some 60), (v3, UnitK.seconds, some 60)] := by
  constructor
  · have h := claim_C9_time_bounds.2.1 ['6', '0'] UnitK.minutes 60 60 []
      (by simp [measureOne, parseDecimal, parseMantissa, parseNatD,
        List.takeWhile, List.dropWhile, Char.isDigit])
      (by norm_num) (by norm_num)
    simpa [unitName] using h
  · exact claim_C9_time_bounds.1 "24:00:00".data _ rfl

/-- Scanning a run of decimal characters only extends the pending value
buffer. -/
theorem sweepGo_decimal (ctx : List (Char × UnitK)) (inTime found : Bool)
    (acc v rest : List Char) (hv : ∀ ch ∈ v, ch ∈ decimalChars) :
    sweepGo ctx inTime found acc (v ++ rest) = sweepGo ctx inTime found (acc ++ v) rest := by
  induction v generalizing acc with
  | nil => simp
  | cons ch v ih =>
    have hch : ch ∈ decimalChars := hv ch (by simp)
    rw [List.cons_append]
    show sweepGo ctx inTime found acc (ch :: (v ++ rest)) = _
    rw [show sweepGo ctx inTime found acc (ch :: (v ++ rest)) =
        sweepGo ctx inTime found (acc ++ [ch]) (v ++ rest) by
      simp only [sweepGo]
      rw [if_pos hch]]
    rw [ih _ fun x hx => hv x (by simp [hx])]
    simp

/-- Claim C5, counterexample to the claim as stated: `"P1W2D"` parses
successfully (to `Duration(weeks=1, days=2)`) even though it combines a `W`
measurement with another unit designator. -/
theorem claim_C5_counterexample :
    Duration.fromisoformat "P1W2D" = .ok { weeks := 1, days := 2 } := by
  norm_num +decide [Duration.fromisoformat, fromDuration, lastIsUpper, fromDesignators,
    sweepGo, popUntil, dateCtx, timeCtx, decimalChars, measureOne, parseDecimal,
    parseMantissa, parseNatD, durationOf, Duration.set, Char.isDigit, Char.isUpper,
    List.takeWhile, List.dropWhile, beq_iff_eq, Bool.or_eq_true, Bool.not_eq_true',
    Bind.bind, Except.bind, Pure.pure, Except.pure]
  simp

/-- Claim C5 (amended): `parse("P1W") = Duration(weeks=1)`, but weeks is an
ordinary date-context designator ordered after years/months and before days:
a weeks measurement may be followed by a days measurement or by a time
segment, while any of the designators `Y`, `M`, `W` after a consumed weeks
measurement is an `unexpected character` parse failure. -/
theorem claim_C5_weeks :
    Duration.fromisoformat "P1W" = .ok { weeks := 1 } ∧
    Duration.fromisoformat "P1WT1H" = .ok { weeks := 1, hours := 1 } ∧
    (∀ (v : List Char) (c : Char), c ∈ (['Y', 'M', 'W'] : List Char) →
      (∀ ch ∈ v, ch ∈ decimalChars) →
      Duration.fromisoformat (String.mk ('P' :: '1' :: 'W' :: (v ++ [c]))) =
        .error (.valueError ("could not parse  duration '" ++
          String.mk ('P' :: '1' :: 'W' :: (v ++ [c])) ++
          "': unexpected character '" ++ c.toString ++ "'"))) := by
  refine ⟨?_, ?_, ?_⟩
  · norm_num +decide [Duration.fromisoformat, fromDuration, lastIsUpper, fromDesignators,
      sweepGo, popUntil, dateCtx, timeCtx, decimalChars, measureOne, parseDecimal,
      parseMantissa, parseNatD, durationOf, Duration.set, Char.isDigit, Char.isUpper,
      List.takeWhile, List.dropWhile, beq_iff_eq, Bool.or_eq_true, Bool.not_eq_true',
      Bind.bind, Except.bind, Pure.pure, Except.pure]
    simp
  · norm_num +decide [Duration.fromisoformat, fromDuration, lastIsUpper, fromDesignators,
      sweepGo, popUntil, dateCtx, timeCtx, decimalChars, measureOne, parseDecimal,
      parseMantissa, parseNatD, durationOf, Duration.set, Char.isDigit, Char.isUpper,
      List.takeWhile, List.dropWhile, beq_iff_eq, Bool.or_eq_true, Bool.not_eq_true',
      Bind.bind, Except.bind, Pure.pure, Except.pure]
    simp
  · intro v c hc hv
    have hlast : lastIsUpper ('P' :: '1' :: 'W' :: (v ++ [c])) = true := by
      unfold lastIsUpper
      rw [show ('P' :: '1' :: 'W' :: (v ++ [c])) = (('P' :: '1' :: 'W' :: v) ++ [c]) by simp,
        List.getLast?_concat]
      fin_cases hc <;> decide
    have hm1 : measureOne ['1'] = .ok 1 := by
      simp [measureOne, parseDecimal, parseMantissa, parseNatD,
        List.takeWhile, List.dropWhile, Char.isDigit]
    have hcnotdec : c ∉ decimalChars := by fin_cases hc <;> decide
    have hcnotT : ¬ (c = 'T' ∧ True) := by fin_cases hc <;> simp
    have hcnotD : popUntil c [('D', UnitK.days)] = none := by
      fin_cases hc <;> decide
    unfold Duration.fromisoformat
    have hdata : (String.mk ('P' :: '1' :: 'W' :: (v ++ [c]))).data =
        'P' :: '1' :: 'W' :: (v ++ [c]) := rfl
    rw [hdata]
    have hsweep : fromDuration ('P' :: '1' :: 'W' :: (v ++ [c])) =
        .error ("unexpected character '" ++ c.toString ++ "'") := by
      unfold fromDuration
      rw [if_neg (by simp), if_pos hlast]
      unfold fromDesignators
      show sweepGo dateCtx false false [] ('1' :: 'W' :: (v ++ [c])) = _
      rw [show sweepGo dateCtx false false [] ('1' :: 'W' :: (v ++ [c])) =
          sweepGo dateCtx false false ['1'] ('W' :: (v ++ [c])) by
        simp only [sweepGo]
        rw [if_pos (by decide)]
        simp]
      rw [show sweepGo dateCtx false false ['1'] ('W' :: (v ++ [c])) =
          (do
            let q ← measureOne ['1']
            let ms ← sweepGo [('D', UnitK.days)] false true [] (v ++ [c])
            pure (if q = 0 then ms else (UnitK.weeks, q) :: ms)) by
        simp only [sweepGo]
        rw [if_neg (by decide), if_neg (by decide)]
        simp [popUntil, dateCtx]]
      rw [hm1]
      rw [sweepGo_decimal _ _ _ _ _ _ hv]
      rw [show sweepGo [('D', UnitK.days)] false true ([] ++ v) [c] =
          .error ("unexpected character '" ++ c.toString ++ "'") by
        simp only [sweepGo]
        rw [if_neg hcnotdec]
        rw [if_neg hcnotT, hcnotD]]
      simp [Bind.bind, Except.bind]
    rw [hsweep]
    have hmerge : ∀ t : String, ("': " : String) ++ ("unexpected character '" ++ t) =
        "': unexpected character '" ++ t := fun t => by
      rw [← String.append_assoc]
      exact congrArg (fun x => x ++ t) (by decide)
    simp only [String.append_assoc]
    rw [hmerge]

/-- Witness for claim C5 at the concrete input `"P1W3M"`. -/
theorem claim_C5_weeks_witness :
    Duration.fromisoformat (String.mk ('P' :: '1' :: 'W' :: (['3'] ++ ['M']))) =
      .error (.valueError ("could not parse  duration '" ++
        String.mk ('P' :: '1' :: 'W' :: (['3'] ++ ['M'])) ++
        "': unexpected character '" ++ 'M'.toString ++ "'")) :=
  claim_C5_weeks.2.2 ['3'] 'M' (by decide) (by decide)

/-- Claim C4 (code bug): a `duration/end` interval string reaches
`Interval.__init__`'s `self.start = end - duration` line, but `datetime`
does not support subtraction of a `Duration` and `Duration` implements no
`__rsub__`, so the parse raises `TypeError` instead of succeeding with
`start = end - duration`. -/
theorem claim_C4_duration_end_typeerror :
    TimeInterval.fromisoformat "P1D/2008-05-11T15:30:00" =
      .error (.typeError
        "unsupported operand type(s) for -: 'datetime.datetime' and 'Duration'") := by
  have hsplit : splitChar '/' ("P1D/2008-05-11T15:30:00" : String).data =
      ["P1D".data, "2008-05-11T15:30:00".data] := by
    norm_num +decide [splitChar]
  have hdur : Duration.fromisoformat (String.mk "P1D".data) = .ok { days := 1 } := by
    norm_num +decide [Duration.fromisoformat, fromDuration, lastIsUpper, fromDesignators,
      sweepGo, popUntil, dateCtx, timeCtx, decimalChars, measureOne, parseDecimal,
      parseMantissa, parseNatD, durationOf, Duration.set, Char.isDigit, Char.isUpper,
      List.takeWhile, List.dropWhile, beq_iff_eq, Bool.or_eq_true, Bool.not_eq_true',
      Bind.bind, Except.bind, Pure.pure, Except.pure]
    simp
  have hdt : dtFromIso (String.mk "2008-05-11T15:30:00".data) =
      .ok ⟨⟨⟨2008, 5, 11⟩, 55800000000⟩, none⟩ := by
    norm_num +decide [dtFromIso, parseNatD, validYMD, daysInMonth, isLeap, Char.isDigit]
  unfold TimeInterval.fromisoformat
  rw [if_neg (by decide), hsplit]
  norm_num +decide [hdur, hdt, TimeInterval.init, dtSubDuration,
    Bind.bind, Except.bind, Pure.pure, Except.pure]

/-- Every month has at least one day. -/
theorem daysInMonth_pos (y m : ℤ) : 1 ≤ daysInMonth y m := by
  unfold daysInMonth
  split_ifs <;> norm_num

/-- The calendar successor preserves date validity. -/
theorem succDate_valid {d : DateYMD} (h : validYMD d.year d.month d.day) :
    validYMD (succDate d).year (succDate d).month (succDate d).day := by
  obtain ⟨h1, h2, h3, h4⟩ := h
  unfold succDate validYMD
  split_ifs with ha hb <;> dsimp only
  · exact ⟨h1, h2, by omega, by omega⟩
  · exact ⟨by omega, by omega, by norm_num, daysInMonth_pos _ _⟩
  · exact ⟨by norm_num, by norm_num, by norm_num, daysInMonth_pos _ _⟩

/-- The calendar predecessor preserves date validity. -/
theorem predDate_valid {d : DateYMD} (h : validYMD d.year d.month d.day) :
    validYMD (predDate d).year (predDate d).month (predDate d).day := by
  obtain ⟨h1, h2, h3, h4⟩ := h
  unfold predDate validYMD
  split_ifs with ha hb <;> dsimp only
  · exact ⟨h1, h2, by omega, by omega⟩
  · exact ⟨by omega, by omega, daysInMonth_pos _ _, le_refl _⟩
  · refine ⟨by norm_num, by norm_num, by norm_num, ?_⟩
    norm_num [daysInMonth]

/-- December has 31 days. -/
theorem daysInMonth_december (y : ℤ) : daysInMonth y 12 = 31 := by
  norm_num [daysInMonth]

/-- `predDate` inverts `succDate` on valid dates. -/
theorem predDate_succDate {d : DateYMD} (h : validYMD d.year d.month d.day) :
    predDate (succDate d) = d := by
  rcases d with ⟨y, m, day⟩
  obtain ⟨h1, h2, h3, h4⟩ := h
  dsimp only at h1 h2 h3 h4
  unfold succDate
  dsimp only
  split_ifs with ha hb
  · unfold predDate
    dsimp only
    rw [if_pos (by omega)]
    simp only [DateYMD.mk.injEq, true_and, and_true, eq_self_iff_true]
    omega
  · unfold predDate
    dsimp only
    rw [if_neg (by omega), if_pos (by omega)]
    simp only [DateYMD.mk.injEq, true_and, and_true, eq_self_iff_true]
    have hm : m + 1 - 1 = m := by omega
    rw [hm]
    omega
  · unfold predDate
    dsimp only
    rw [if_neg (by omega), if_neg (by omega)]
    simp only [DateYMD.mk.injEq, true_and, and_true, eq_self_iff_true]
    have h12 : m = 12 := by omega
    have h31 : daysInMonth y 12 = 31 := daysInMonth_december y
    subst h12
    omega

/-- `succDate` inverts `predDate` on valid dates. -/
theorem succDate_predDate {d : DateYMD} (h : validYMD d.year d.month d.day) :
    succDate (predDate d) = d := by
  rcases d with ⟨y, m, day⟩
  obtain ⟨h1, h2, h3, h4⟩ := h
  dsimp only at h1 h2 h3 h4
  unfold predDate
  dsimp only
  split_ifs with ha hb
  · unfold succDate
    dsimp only
    rw [if_pos (by omega)]
    simp only [DateYMD.mk.injEq, true_and, and_true, eq_self_iff_true]
    omega
  · unfold succDate
    dsimp only
    rw [if_neg (by omega), if_pos (by omega)]
    simp only [DateYMD.mk.injEq, true_and, and_true, eq_self_iff_true]
    omega
  · unfold succDate
    dsimp only
    have h1' : m = 1 := by omega
    have h31 : daysInMonth (y - 1) 12 = 31 := daysInMonth_december (y - 1)
    rw [if_neg (by omega), if_neg (by omega)]
    simp only [DateYMD.mk.injEq, true_and, and_true, eq_self_iff_true]
    omega

/-- Valid Gregorian dates. -/
def VDate := {d : DateYMD // validYMD d.year d.month d.day}

/-- The calendar successor as a permutation of valid dates. -/
def succPerm : Equiv.Perm VDate where
  toFun d := ⟨succDate d.1, succDate_valid d.2⟩
  invFun d := ⟨predDate d.1, predDate_valid d.2⟩
  left_inv d := Subtype.ext (predDate_succDate d.2)
  right_inv d := Subtype.ext (succDate_predDate d.2)

theorem succPerm_pow_apply (n : ℕ) (d : VDate) :
    ((succPerm ^ n) d).1 = succDate^[n] d.1 := by
  induction n generalizing d with
  | zero => simp
  | succ n ih =>
    rw [pow_succ', Function.iterate_succ']
    calc ((succPerm * succPerm ^ n) d).1 = (succPerm ((succPerm ^ n) d)).1 := rfl
      _ = succDate ((succPerm ^ n) d).1 := rfl
      _ = succDate (succDate^[n] d.1) := by rw [ih]
      _ = (succDate ∘ succDate^[n]) d.1 := rfl

theorem succPerm_inv_pow_apply (n : ℕ) (d : VDate) :
    ((succPerm⁻¹ ^ n) d).1 = predDate^[n] d.1 := by
  induction n generalizing d with
  | zero => simp
  | succ n ih =>
    rw [pow_succ', Function.iterate_succ']
    calc ((succPerm⁻¹ * succPerm⁻¹ ^ n) d).1 = (succPerm⁻¹ ((succPerm⁻¹ ^ n) d)).1 := rfl
      _ = predDate ((succPerm⁻¹ ^ n) d).1 := rfl
      _ = predDate (predDate^[n] d.1) := by rw [ih]
      _ = (predDate ∘ predDate^[n]) d.1 := rfl

/-- `addDaysInt` is the `ℤ`-power of the successor permutation on valid
dates. -/
theorem addDaysInt_eq_zpow (k : ℤ) (d : VDate) :
    addDaysInt k d.1 = ((succPerm ^ k) d).1 := by
  unfold addDaysInt
  rcases k with n | n
  · rw [if_pos (show (0 : ℤ) ≤ Int.ofNat n from Int.ofNat_nonneg n)]
    rw [show ((Int.ofNat n).toNat) = n from rfl, show ((succPerm ^ (Int.ofNat n))) = succPerm ^ n
      from zpow_natCast succPerm n]
    exact (succPerm_pow_apply n d).symm
  · rw [if_neg (Int.negSucc_lt_zero n).not_le]
    rw [show ((-(Int.negSucc n)).toNat) = n + 1 by rfl]
    rw [zpow_negSucc]
    rw [show ((succPerm ^ (n + 1))⁻¹) = (succPerm⁻¹) ^ (n + 1) from (inv_pow succPerm (n + 1)).symm]
    exact (succPerm_inv_pow_apply (n + 1) d).symm

/-- `addDaysInt` preserves validity. -/
theorem addDaysInt_valid (k : ℤ) {d : DateYMD} (h : validYMD d.year d.month d.day) :
    validYMD (addDaysInt k d).year (addDaysInt k d).month (addDaysInt k d).day := by
  have := addDaysInt_eq_zpow k ⟨d, h⟩
  rw [this]
  exact ((succPerm ^ k) ⟨d, h⟩).2

/-- `addDaysInt` is additive on valid dates. -/
theorem addDaysInt_add (k1 k2 : ℤ) {d : DateYMD} (h : validYMD d.year d.month d.day) :
    addDaysInt k2 (addDaysInt k1 d) = addDaysInt (k1 + k2) d := by
  have e1 := addDaysInt_eq_zpow k1 ⟨d, h⟩
  have e2 := addDaysInt_eq_zpow k2 ((succPerm ^ k1) ⟨d, h⟩)
  have e3 := addDaysInt_eq_zpow (k1 + k2) ⟨d, h⟩
  rw [e1, e2, e3]
  rw [show (succPerm ^ k2) ((succPerm ^ k1) ⟨d, h⟩) = ((succPerm ^ k2) * (succPerm ^ k1)) ⟨d, h⟩
    from rfl]
  rw [← zpow_add succPerm k2 k1]
  rw [show k2 + k1 = k1 + k2 from add_comm k2 k1]

/-- `addMics` composes additively when the date is valid. -/
theorem addMics_addMics (n : NaiveDT) (k1 k2 : ℤ)
    (h : validYMD n.date.year n.date.month n.date.day) :
    addMics (addMics n k1) k2 = addMics n (k1 + k2) := by
  have hM : (0 : ℤ) ≤ micsPerDay := le_of_lt micsPerDay_pos
  have hfm : ∀ a : ℤ, a.fmod micsPerDay = a % micsPerDay := fun a => Int.fmod_eq_emod a hM
  have hfd : ∀ a : ℤ, a.fdiv micsPerDay = a / micsPerDay := fun a => Int.fdiv_eq_ediv a hM
  unfold addMics
  dsimp only
  rw [hfm, hfd, hfm, hfd, hfm, hfd]
  have hA : (n.mics + k1) % micsPerDay % micsPerDay = (n.mics + k1) % micsPerDay := by
    simp only [micsPerDay]
    omega
  have hB : ((n.mics + k1) % micsPerDay + k2) % micsPerDay =
      (n.mics + (k1 + k2)) % micsPerDay := by
    simp only [micsPerDay]
    omega
  have hC : (n.mics + k1) / micsPerDay + ((n.mics + k1) % micsPerDay + k2) / micsPerDay =
      (n.mics + (k1 + k2)) / micsPerDay := by
    simp only [micsPerDay]
    omega
  simp only [NaiveDT.mk.injEq]
  refine ⟨?_, hB⟩
  rw [addDaysInt_add _ _ h, hC]

/-- For a month in `1..12`, the year/month step of calendar addition with
zero years and months is the identity on the month arithmetic. -/
theorem monthArith_noop {m : ℤ} (h1 : 1 ≤ m) (h2 : m ≤ 12) :
    (m - 1).fdiv 12 = 0 ∧ (m - 1).fmod 12 = m - 1 := by
  constructor
  · rw [Int.fdiv_eq_ediv _ (by norm_num)]
    omega
  · rw [Int.fmod_eq_emod _ (by norm_num)]
    omega

/-- Claim C3 (amended): with sub-day components added as elapsed UTC time
and days as naive calendar days, (A) a 23-hour duration starting from a
canonically-localised timestamp whose span crosses a spring-forward
transition (+1h offset change) lands on the same local clock time of the
next calendar day and equals (as an instant) that localised local time; and
(B) a one-day duration lands on the same local time of the next calendar
day provided the target local time is consistently localised (not inside a
DST gap). -/
theorem claim_C3_dst :
    ∀ (z : Tz) (nd : DateYMD) (mics o1 : ℤ),
      validYMD nd.year nd.month nd.day → 0 ≤ mics → mics < micsPerDay →
      ((z.localizeOffset ⟨nd, mics⟩ = o1 →
        z.utcOffsetAt (addMics ⟨nd, mics⟩ (82800000000 - o1)) = o1 + 3600000000 →
        z.localizeOffset ⟨succDate nd, mics⟩ = o1 + 3600000000 →
        Except.map DT.naive
            (Duration.addDatetime { hours := 23 } ⟨⟨nd, mics⟩, some (z, o1)⟩) =
          .ok ⟨succDate nd, mics⟩ ∧
        Except.map utcNaive
            (Duration.addDatetime { hours := 23 } ⟨⟨nd, mics⟩, some (z, o1)⟩) =
          .ok (utcNaive (z.localize ⟨succDate nd, mics⟩))) ∧
       (z.utcOffsetAt (addMics ⟨succDate nd, mics⟩
            (-(z.localizeOffset ⟨succDate nd, mics⟩))) =
          z.localizeOffset ⟨succDate nd, mics⟩ →
        Except.map DT.naive
            (Duration.addDatetime { days := 1 } ⟨⟨nd, mics⟩, some (z, o1)⟩) =
          .ok ⟨succDate nd, mics⟩)) := by
  intro z nd mics o1 hval h0 h1
  obtain ⟨hm1, hm2, hd1, hd2⟩ := hval
  have hval' : validYMD nd.year nd.month nd.day := ⟨hm1, hm2, hd1, hd2⟩
  have hfrac : ¬ ((0 : ℚ) - ⌊(0 : ℚ)⌋ ≠ 0) := by norm_num
  have hpr0 : pyRound (0 : ℚ) = 0 := by norm_num [pyRound]
  obtain ⟨hfd, hfm⟩ := monthArith_noop hm1 hm2
  have hsval : validYMD (succDate nd).year (succDate nd).month (succDate nd).day :=
    succDate_valid hval'
  constructor
  · intro hL1 hU hL2
    have hsteps := addDatetime_steps ({ hours := 23 } : Duration) ⟨⟨nd, mics⟩, some (z, o1)⟩
    rw [if_neg hfrac] at hsteps
    rw [hsteps]
    have hny : newYear { hours := 23 } ⟨⟨nd, mics⟩, some (z, o1)⟩ = nd.year := by
      simp [newYear, newZeroMonth, hpr0, hfd]
    have hnm : newMonth { hours := 23 } ⟨⟨nd, mics⟩, some (z, o1)⟩ = nd.month := by
      simp [newMonth, newZeroMonth, hpr0, hfm]
    rw [hny, hnm]
    rw [replaceYear_ok _ _ ⟨hm1, hm2⟩ ⟨hd1, hd2⟩]
    simp only [Bind.bind, Except.bind]
    rw [replaceMonth_ok _ _ ⟨hm1, hm2⟩ ⟨hd1, hd2⟩]
    dsimp only
    have hday : dayStep { hours := 23 }
        ⟨⟨⟨nd.year, nd.month, nd.day⟩, mics⟩, some (z, o1)⟩ =
        ⟨⟨nd, mics⟩, some (z, o1)⟩ := by
      unfold dayStep
      have htd : tdFromDays ((0 : ℚ) + 7 * 0) = 0 := by norm_num [tdFromDays, pyRound]
      have hnd : (⟨nd.year, nd.month, nd.day⟩ : DateYMD) = nd := rfl
      simp only [htd, hnd]
      rw [addMics_small _ _ (by dsimp only; omega) (by dsimp only; omega)]
      simp [Tz.localize, hL1]
    rw [hday]
    have hΔ : tdFromHMS (23 : ℚ) 0 0 = 82800000000 := by norm_num [tdFromHMS, pyRound]
    have e1 : addMics (addMics ⟨nd, mics⟩ (-o1)) 82800000000 =
        addMics ⟨nd, mics⟩ (82800000000 - o1) := by
      rw [addMics_addMics _ _ _ hval']
      congr 1
      ring
    have e3 : addMics (addMics ⟨nd, mics⟩ (82800000000 - o1)) (o1 + 3600000000) =
        ⟨succDate nd, mics⟩ := by
      rw [addMics_addMics _ _ _ hval']
      rw [show 82800000000 - o1 + (o1 + 3600000000) = micsPerDay by
        simp only [micsPerDay]; ring]
      rw [addMics_day1 _ _ (by dsimp only; omega) (by dsimp only; omega)]
      dsimp only
      simp only [NaiveDT.mk.injEq, eq_self_iff_true, true_and]
      omega
    have htime : timeStep { hours := 23 } ⟨⟨nd, mics⟩, some (z, o1)⟩ =
        ⟨⟨succDate nd, mics⟩, some (z, o1 + 3600000000)⟩ := by
      unfold timeStep
      dsimp only
      rw [hΔ, e1, hU, e3]
    rw [htime]
    constructor
    · simp [Except.map, Pure.pure, Except.pure]
    · simp [Except.map, Pure.pure, Except.pure, utcNaive, Tz.localize, hL2]
  · intro hB
    have hsteps := addDatetime_steps ({ days := 1 } : Duration) ⟨⟨nd, mics⟩, some (z, o1)⟩
    rw [if_neg hfrac] at hsteps
    rw [hsteps]
    have hny : newYear { days := 1 } ⟨⟨nd, mics⟩, some (z, o1)⟩ = nd.year := by
      simp [newYear, newZeroMonth, hpr0, hfd]
    have hnm : newMonth { days := 1 } ⟨⟨nd, mics⟩, some (z, o1)⟩ = nd.month := by
      simp [newMonth, newZeroMonth, hpr0, hfm]
    rw [hny, hnm]
    rw [replaceYear_ok _ _ ⟨hm1, hm2⟩ ⟨hd1, hd2⟩]
    simp only [Bind.bind, Except.bind]
    rw [replaceMonth_ok _ _ ⟨hm1, hm2⟩ ⟨hd1, hd2⟩]
    dsimp only
    have hone : addMics ⟨nd, mics⟩ 86400000000 = ⟨succDate nd, mics⟩ := by
      rw [show (86400000000 : ℤ) = micsPerDay from rfl]
      rw [addMics_day1 _ _ (by dsimp only; omega) (by dsimp only; omega)]
      dsimp only
      simp only [NaiveDT.mk.injEq, eq_self_iff_true, true_and]
      omega
    have hday : dayStep { days := 1 }
        ⟨⟨⟨nd.year, nd.month, nd.day⟩, mics⟩, some (z, o1)⟩ =
        ⟨⟨succDate nd, mics⟩, some (z, z.localizeOffset ⟨succDate nd, mics⟩)⟩ := by
      unfold dayStep
      have htd : tdFromDays ((1 : ℚ) + 7 * 0) = 86400000000 := by
        norm_num [tdFromDays, pyRound]
      have hnd : (⟨nd.year, nd.month, nd.day⟩ : DateYMD) = nd := rfl
      simp only [htd, hnd]
      rw [show (⟨⟨nd.year, nd.month, nd.day⟩, mics⟩ : NaiveDT) = ⟨nd, mics⟩ from rfl, hone]
      simp [Tz.localize]
    rw [hday]
    have hΔ : tdFromHMS (0 : ℚ) 0 0 = 0 := by norm_num [tdFromHMS, pyRound]
    set lo := z.localizeOffset ⟨succDate nd, mics⟩ with hlo
    have e1 : addMics (addMics ⟨succDate nd, mics⟩ (-lo)) 0 =
        addMics ⟨succDate nd, mics⟩ (-lo) := by
      rw [addMics_addMics _ _ _ hsval]
      congr 1
      ring
    have e3 : addMics (addMics ⟨succDate nd, mics⟩ (-lo)) lo =
        ⟨succDate nd, mics⟩ := by
      rw [addMics_addMics _ _ _ hsval]
      rw [show -lo + lo = 0 by ring]
      rw [addMics_small _ _ (by dsimp only; omega) (by dsimp only; omega)]
      simp
    have htime : timeStep { days := 1 } ⟨⟨succDate nd, mics⟩, some (z, lo)⟩ =
        ⟨⟨succDate nd, mics⟩, some (z, lo)⟩ := by
      unfold timeStep
      dsimp only
      rw [hΔ, e1, hB, e3]
    rw [htime]
    simp [Except.map, Pure.pure, Except.pure]

/-- Microsecond instant of a naive timestamp (for ordering concrete model
timezones). -/
def instantOf (n : NaiveDT) : ℤ := dayNumber n.date * micsPerDay + n.mics

/-- A concrete model of the `US/Eastern` zone around its 2020-03-08
spring-forward transition (07:00 UTC; EST = UTC-5 before, EDT = UTC-4
after).  `localizeOffset` encodes `pytz`'s `is_dst=False` choice: local
times before 03:00 on 2020-03-08 (including the non-existent 02:xx gap) get
EST. -/
def easternM : Tz where
  utcOffsetAt u :=
    if instantOf u < instantOf ⟨⟨2020, 3, 8⟩, 25200000000⟩ then -18000000000
    else -14400000000
  localizeOffset n :=
    if instantOf n < instantOf ⟨⟨2020, 3, 8⟩, 10800000000⟩ then -18000000000
    else -14400000000

/-- Full evaluation of `timestamp + Duration(days=1)` for an aware
timestamp: the naive fields advance one calendar day, then the zero-length
time step round-trips the result through UTC with the offsets chosen by
`localize` and `astimezone`. -/
theorem addDatetime_one_day (z : Tz) (nd : DateYMD) (mics o1 : ℤ)
    (hval : validYMD nd.year nd.month nd.day) (h0 : 0 ≤ mics) (h1 : mics < micsPerDay) :
    Duration.addDatetime { days := 1 } ⟨⟨nd, mics⟩, some (z, o1)⟩ =
      .ok ⟨addMics (addMics ⟨succDate nd, mics⟩ (-(z.localizeOffset ⟨succDate nd, mics⟩)))
            (z.utcOffsetAt (addMics ⟨succDate nd, mics⟩
              (-(z.localizeOffset ⟨succDate nd, mics⟩)))),
          some (z, z.utcOffsetAt (addMics ⟨succDate nd, mics⟩
            (-(z.localizeOffset ⟨succDate nd, mics⟩))))⟩ := by
  obtain ⟨hm1, hm2, hd1, hd2⟩ := hval
  have hval' : validYMD nd.year nd.month nd.day := ⟨hm1, hm2, hd1, hd2⟩
  have hsval : validYMD (succDate nd).year (succDate nd).month (succDate nd).day :=
    succDate_valid hval'
  have hfrac : ¬ ((0 : ℚ) - ⌊(0 : ℚ)⌋ ≠ 0) := by norm_num
  have hpr0 : pyRound (0 : ℚ) = 0 := by norm_num [pyRound]
  obtain ⟨hfd, hfm⟩ := monthArith_noop hm1 hm2
  have hsteps := addDatetime_steps ({ days := 1 } : Duration) ⟨⟨nd, mics⟩, some (z, o1)⟩
  rw [if_neg hfrac] at hsteps
  rw [hsteps]
  have hny : newYear { days := 1 } ⟨⟨nd, mics⟩, some (z, o1)⟩ = nd.year := by
    simp [newYear, newZeroMonth, hpr0, hfd]
  have hnm : newMonth { days := 1 } ⟨⟨nd, mics⟩, some (z, o1)⟩ = nd.month := by
    simp [newMonth, newZeroMonth, hpr0, hfm]
  rw [hny, hnm]
  rw [replaceYear_ok _ _ ⟨hm1, hm2⟩ ⟨hd1, hd2⟩]
  simp only [Bind.bind, Except.bind]
  rw [replaceMonth_ok _ _ ⟨hm1, hm2⟩ ⟨hd1, hd2⟩]
  dsimp only
  have hone : addMics ⟨nd, mics⟩ 86400000000 = ⟨succDate nd, mics⟩ := by
    rw [show (86400000000 : ℤ) = micsPerDay from rfl]
    rw [addMics_day1 _ _ (by dsimp only; omega) (by dsimp only; omega)]
    dsimp only
    simp only [NaiveDT.mk.injEq, eq_self_iff_true, true_and]
    omega
  have hday : dayStep { days := 1 }
      ⟨⟨⟨nd.year, nd.month, nd.day⟩, mics⟩, some (z, o1)⟩ =
      ⟨⟨succDate nd, mics⟩, some (z, z.localizeOffset ⟨succDate nd, mics⟩)⟩ := by
    unfold dayStep
    have htd : tdFromDays ((1 : ℚ) + 7 * 0) = 86400000000 := by
      norm_num [tdFromDays, pyRound]
    have hnd : (⟨nd.year, nd.month, nd.day⟩ : DateYMD) = nd := rfl
    simp only [htd, hnd]
    rw [show (⟨⟨nd.year, nd.month, nd.day⟩, mics⟩ : NaiveDT) = ⟨nd, mics⟩ from rfl, hone]
    simp [Tz.localize]
  rw [hday]
  have hΔ : tdFromHMS (0 : ℚ) 0 0 = 0 := by norm_num [tdFromHMS, pyRound]
  set lo := z.localizeOffset ⟨succDate nd, mics⟩ with hlo
  have e1 : addMics (addMics ⟨succDate nd, mics⟩ (-lo)) 0 =
      addMics ⟨succDate nd, mics⟩ (-lo) := by
    rw [addMics_addMics _ _ _ hsval]
    congr 1
    ring
  have htime : timeStep { days := 1 } ⟨⟨succDate nd, mics⟩, some (z, lo)⟩ =
      ⟨addMics (addMics ⟨succDate nd, mics⟩ (-lo))
          (z.utcOffsetAt (addMics ⟨succDate nd, mics⟩ (-lo))),
        some (z, z.utcOffsetAt (addMics ⟨succDate nd, mics⟩ (-lo)))⟩ := by
    unfold timeStep
    dsimp only
    rw [hΔ, e1]
  rw [htime]
  simp [Pure.pure, Except.pure]

/-- Claim C3, counterexample to the claim as stated: starting from
2020-03-07 02:30 EST (in the modelled US/Eastern zone), adding
`Duration(days=1)` does not land on the same local time of the next
calendar day, because 2020-03-08 02:30 falls in the spring-forward gap:
the result's local fields are 03:30. -/
theorem claim_C3_counterexample :
    Except.map DT.naive (Duration.addDatetime { days := 1 }
        ⟨⟨⟨2020, 3, 7⟩, 9000000000⟩, some (easternM, -18000000000)⟩) =
      .ok ⟨⟨2020, 3, 8⟩, 12600000000⟩ ∧
    Except.map DT.naive (Duration.addDatetime { days := 1 }
        ⟨⟨⟨2020, 3, 7⟩, 9000000000⟩, some (easternM, -18000000000)⟩) ≠
      .ok ⟨succDate ⟨2020, 3, 7⟩, 9000000000⟩ := by
  have h := addDatetime_one_day easternM ⟨2020, 3, 7⟩ 9000000000 (-18000000000)
    (by decide) (by decide) (by decide)
  have hval : (addMics (addMics ⟨succDate ⟨2020, 3, 7⟩, 9000000000⟩
      (-(easternM.localizeOffset ⟨succDate ⟨2020, 3, 7⟩, 9000000000⟩)))
      (easternM.utcOffsetAt (addMics ⟨succDate ⟨2020, 3, 7⟩, 9000000000⟩
        (-(easternM.localizeOffset ⟨succDate ⟨2020, 3, 7⟩, 9000000000⟩))))) =
      ⟨⟨2020, 3, 8⟩, 12600000000⟩ := by decide
  rw [h, hval]
  constructor
  · simp [Except.map]
  · simp [Except.map]

/-- Witness for claim C3 in the modelled US/Eastern zone, starting
2020-03-07 12:00 EST. -/
theorem claim_C3_dst_witness :
    (Except.map DT.naive (Duration.addDatetime { hours := 23 }
        ⟨⟨⟨2020, 3, 7⟩, 43200000000⟩, some (easternM, -18000000000)⟩) =
      .ok ⟨succDate ⟨2020, 3, 7⟩, 43200000000⟩ ∧
     Except.map utcNaive (Duration.addDatetime { hours := 23 }
        ⟨⟨⟨2020, 3, 7⟩, 43200000000⟩, some (easternM, -18000000000)⟩) =
      .ok (utcNaive (easternM.localize ⟨succDate ⟨2020, 3, 7⟩, 43200000000⟩))) ∧
    Except.map DT.naive (Duration.addDatetime { days := 1 }
        ⟨⟨⟨2020, 3, 7⟩, 43200000000⟩, some (easternM, -18000000000)⟩) =
      .ok ⟨succDate ⟨2020, 3, 7⟩, 43200000000⟩ := by
  have h := claim_C3_dst easternM ⟨2020, 3, 7⟩ 43200000000 (-18000000000)
    (by decide) (by decide) (by decide)
  exact ⟨h.1 (by decide) (by decide) (by decide), h.2 (by decide)⟩

/-! ## Decimal rendering/parsing round-trip (towards the format/parse claim) -/

theorem parseNatD_append_one (xs : List Char) (c : Char) :
    parseNatD (xs ++ [c]) = 10 * parseNatD xs + digitVal c := by
  unfold parseNatD
  rw [List.foldl_append]
  rfl

theorem digitChar_isDigit {r : ℕ} (h : r < 10) : (Char.ofNat (48 + r)).isDigit = true := by
  interval_cases r <;> decide

theorem digitVal_digitChar {r : ℕ} (h : r < 10) : digitVal (Char.ofNat (48 + r)) = r := by
  interval_cases r <;> decide

theorem digitChar_mem_decimal {r : ℕ} (h : r < 10) : Char.ofNat (48 + r) ∈ decimalChars := by
  interval_cases r <;> decide

theorem digitChar_ne_dot {r : ℕ} (h : r < 10) : Char.ofNat (48 + r) ≠ '.' := by
  interval_cases r <;> decide

theorem digitChar_not_eE {r : ℕ} (h : r < 10) :
    (!(Char.ofNat (48 + r) == 'e' || Char.ofNat (48 + r) == 'E')) = true := by
  interval_cases r <;> decide

theorem digitChar_ne_comma {r : ℕ} (h : r < 10) : Char.ofNat (48 + r) ≠ ',' := by
  interval_cases r <;> decide

theorem isDigit_mem_decimal {c : Char} (h : c.isDigit = true) : c ∈ decimalChars := by
  unfold Char.isDigit at h
  have h1 : 48 ≤ c.toNat := by
    simp only [Bool.and_eq_true, decide_eq_true_eq] at h
    exact h.1
  have h2 : c.toNat ≤ 57 := by
    simp only [Bool.and_eq_true, decide_eq_true_eq] at h
    exact h.2
  have : c = Char.ofNat (48 + (c.toNat - 48)) := by
    have hv : 48 + (c.toNat - 48) = c.toNat := by omega
    rw [hv]
    exact (Char.ofNat_toNat c).symm
  rw [this]
  exact digitChar_mem_decimal (by omega)

theorem padDigits_length (k n : ℕ) : (padDigits k n).length = k := by
  induction k generalizing n with
  | zero => rfl
  | succ k ih => simp [padDigits, ih]

theorem padDigits_digits (k n : ℕ) :
    ∀ c ∈ padDigits k n, ∃ r : ℕ, r < 10 ∧ c = Char.ofNat (48 + r) := by
  induction k generalizing n with
  | zero => intro c hc; simp [padDigits] at hc
  | succ k ih =>
    intro c hc
    simp only [padDigits, List.mem_append, List.mem_singleton] at hc
    rcases hc with h | h
    · exact ih _ c h
    · exact ⟨n % 10, Nat.mod_lt _ (by norm_num), h⟩

theorem parseNatD_padDigits (k n : ℕ) : parseNatD (padDigits k n) = n % 10 ^ k := by
  induction k generalizing n with
  | zero => simp [padDigits, parseNatD, Nat.mod_one]
  | succ k ih =>
    rw [padDigits, parseNatD_append_one, ih, digitVal_digitChar (Nat.mod_lt _ (by norm_num))]
    have h1 : 10 * (n / 10 % 10 ^ k) + n % 10 < 10 ^ (k + 1) := by
      have ha : n / 10 % 10 ^ k < 10 ^ k :=
        Nat.mod_lt _ (pow_pos (show (0 : ℕ) < 10 by norm_num) k)
      have hb : n % 10 < 10 := Nat.mod_lt _ (by norm_num)
      rw [pow_succ]
      omega
    have h2 : n = n / 10 / 10 ^ k * 10 ^ (k + 1) + (10 * (n / 10 % 10 ^ k) + n % 10) := by
      conv_lhs => rw [← Nat.div_add_mod n 10, ← Nat.div_add_mod (n / 10) (10 ^ k)]
      rw [pow_succ]
      ring
    conv_rhs => rw [h2]
    rw [add_comm (n / 10 / 10 ^ k * 10 ^ (k + 1)), Nat.add_mul_mod_self_right,
      Nat.mod_eq_of_lt h1]

theorem digitsRevFuel_spec (fuel : ℕ) : ∀ n ≤ fuel,
    parseNatD (digitsRevFuel fuel n).reverse = n ∧
      ∀ c ∈ digitsRevFuel fuel n, ∃ r : ℕ, r < 10 ∧ c = Char.ofNat (48 + r) := by
  induction fuel with
  | zero =>
    intro n hn
    interval_cases n
    exact ⟨rfl, by intro c hc; simp [digitsRevFuel] at hc⟩
  | succ fuel ih =>
    intro n hn
    by_cases h0 : n = 0
    · subst h0
      exact ⟨rfl, by intro c hc; simp [digitsRevFuel] at hc⟩
    · have hrec := ih (n / 10) (by
        have := Nat.div_lt_self (Nat.pos_of_ne_zero h0) (show 1 < 10 by norm_num)
        omega)
      constructor
      · rw [digitsRevFuel, if_neg h0, List.reverse_cons, parseNatD_append_one, hrec.1,
          digitVal_digitChar (Nat.mod_lt _ (by norm_num))]
        omega
      · intro c hc
        rw [digitsRevFuel, if_neg h0] at hc
        rcases List.mem_cons.mp hc with h | h
        · exact ⟨n % 10, Nat.mod_lt _ (by norm_num), h⟩
        · exact hrec.2 c h

theorem parseNatD_natDigits (n : ℕ) : parseNatD (natDigits n) = n := by
  unfold natDigits
  by_cases h0 : n = 0
  · subst h0; rfl
  · rw [if_neg h0]
    exact ((digitsRevFuel_spec n) n le_rfl).1

theorem natDigits_digits (n : ℕ) :
    ∀ c ∈ natDigits n, ∃ r : ℕ, r < 10 ∧ c = Char.ofNat (48 + r) := by
  unfold natDigits
  by_cases h0 : n = 0
  · subst h0; intro c hc
    simp at hc
    exact ⟨0, by norm_num, by rw [hc]⟩
  · rw [if_neg h0]
    intro c hc
    exact ((digitsRevFuel_spec n) n le_rfl).2 c (List.mem_reverse.mp hc)

theorem natDigits_ne_nil (n : ℕ) : natDigits n ≠ [] := by
  unfold natDigits
  by_cases h0 : n = 0
  · subst h0; simp
  · rw [if_neg h0]
    intro h
    have := parseNatD_natDigits n
    rw [natDigits, if_neg h0, h] at this
    exact h0 (by simpa [parseNatD] using this.symm)

theorem parseNatD_append_zeros (xs : List Char) (j : ℕ) :
    parseNatD (xs ++ List.replicate j '0') = parseNatD xs * 10 ^ j := by
  induction j generalizing xs with
  | zero => simp
  | succ j ih =>
    rw [List.replicate_succ, show xs ++ '0' :: List.replicate j '0' =
      (xs ++ ['0']) ++ List.replicate j '0' by simp, ih, parseNatD_append_one]
    show (10 * parseNatD xs + 0) * 10 ^ j = _
    ring

theorem dropTrailingZeros_decomp (l : List Char) :
    ∃ j : ℕ, l = dropTrailingZeros l ++ List.replicate j '0' := by
  refine ⟨(l.reverse.takeWhile (· == '0')).length, ?_⟩
  have h1 : l.reverse.takeWhile (· == '0') =
      List.replicate (l.reverse.takeWhile (· == '0')).length '0' := by
    apply List.eq_replicate_of_mem
    intro c hc
    have := List.mem_takeWhile_imp hc
    simpa using this
  conv_lhs => rw [← l.reverse_reverse, ← List.takeWhile_append_dropWhile (p := (· == '0'))
    (l := l.reverse)]
  rw [List.reverse_append, dropTrailingZeros]
  congr 1
  rw [← List.reverse_replicate, ← h1]

theorem dropTrailingZeros_sub (l : List Char) : ∀ c ∈ dropTrailingZeros l, c ∈ l := by
  obtain ⟨j, hj⟩ := dropTrailingZeros_decomp l
  intro c hc
  rw [hj]
  exact List.mem_append_left _ hc

theorem exists_scaled_nat (q : ℚ) (hq : 0 ≤ q) (hd : (q.den : ℕ) ∣ 1000000) :
    ∃ K : ℕ, q * 1000000 = (K : ℚ) := by
  refine ⟨q.num.toNat * (1000000 / q.den), ?_⟩
  have hn : 0 ≤ q.num := Rat.num_nonneg.mpr hq
  have hden : (q.den : ℚ) ≠ 0 := by
    exact_mod_cast q.den_nz
  have hcast : ((1000000 / q.den : ℕ) : ℚ) = 1000000 / (q.den : ℚ) := by
    rw [Nat.cast_div hd hden]
    norm_num
  have htn : ((q.num.toNat : ℕ) : ℚ) = (q.num : ℚ) := by
    exact_mod_cast Int.toNat_of_nonneg hn
  have h1 : ((q.num.toNat * (1000000 / q.den) : ℕ) : ℚ) =
      (q.num : ℚ) * (1000000 / (q.den : ℚ)) := by
    push_cast [hcast]
    rw [htn]
  rw [h1]
  conv_lhs => rw [← Rat.num_div_den q]
  ring

theorem takeWhile_all_eq {p : Char → Bool} :
    ∀ l : List Char, (∀ c ∈ l, p c = true) → l.takeWhile p = l ∧ l.dropWhile p = [] := by
  intro l h
  induction l with
  | nil => exact ⟨rfl, rfl⟩
  | cons c cs ih =>
    have hc : p c = true := h c (by simp)
    have ihr := ih fun d hd => h d (by simp [hd])
    rw [List.takeWhile_cons, List.dropWhile_cons, hc]
    simp [ihr.1, ihr.2]

theorem takeWhile_append_left {p : Char → Bool} :
    ∀ l₁ l₂ : List Char, (∀ c ∈ l₁, p c = true) →
      (l₁ ++ l₂).takeWhile p = l₁ ++ l₂.takeWhile p ∧
        (l₁ ++ l₂).dropWhile p = l₂.dropWhile p := by
  intro l₁
  induction l₁ with
  | nil => intro l₂ _; exact ⟨rfl, rfl⟩
  | cons c cs ih =>
    intro l₂ h
    have hc : p c = true := h c (by simp)
    have ihr := ih l₂ fun d hd => h d (by simp [hd])
    rw [List.cons_append, List.takeWhile_cons, List.dropWhile_cons, hc]
    simp [ihr.1, ihr.2]

theorem parseMantissa_digits_dot (I : ℕ) (fr : List Char)
    (hfr : ∀ c ∈ fr, ∃ r : ℕ, r < 10 ∧ c = Char.ofNat (48 + r)) :
    parseMantissa (natDigits I ++ (if fr.isEmpty then [] else '.' :: fr)) =
      some ((I : ℚ) + (parseNatD fr : ℚ) / 10 ^ fr.length) := by
  have hdig : ∀ c ∈ natDigits I, c.isDigit = true := by
    intro c hc
    obtain ⟨r, hr, rfl⟩ := natDigits_digits I c hc
    exact digitChar_isDigit hr
  by_cases hfre : fr.isEmpty
  · have hfr0 : fr = [] := by simpa [List.isEmpty_iff] using hfre
    subst hfr0
    rw [if_pos (show ([] : List Char).isEmpty = true from rfl), List.append_nil]
    unfold parseMantissa
    rw [(takeWhile_all_eq _ hdig).1, (takeWhile_all_eq _ hdig).2]
    have hne : (natDigits I).isEmpty = false := by
      rcases h : natDigits I with _ | ⟨c, cs⟩
      · exact absurd h (natDigits_ne_nil I)
      · rfl
    simp only [hne, Bool.false_eq_true, if_false, parseNatD_natDigits]
    norm_num [parseNatD]
  · rw [if_neg hfre]
    unfold parseMantissa
    have hnotdot : Char.isDigit '.' = false := by decide
    have h1 := takeWhile_append_left (p := Char.isDigit) (natDigits I) ('.' :: fr) hdig
    rw [h1.1, h1.2, List.takeWhile_cons, List.dropWhile_cons, hnotdot]
    simp only [List.append_nil, Bool.false_eq_true, if_false]
    have hall : fr.all Char.isDigit = true := by
      rw [List.all_eq_true]
      intro c hc
      obtain ⟨r, hr, rfl⟩ := hfr c hc
      exact digitChar_isDigit hr
    rw [if_pos ⟨hall, Or.inl (natDigits_ne_nil I)⟩, parseNatD_natDigits]

theorem measureOne_format (q : ℚ) (hq : 0 ≤ q) (hd : (q.den : ℕ) ∣ 1000000) :
    measureOne (formatSixStripped q) = .ok q := by
  obtain ⟨K, hK⟩ := exists_scaled_nat q hq hd
  have hn : pyRound (q * 1000000) = (K : ℤ) := by
    rw [hK, show ((K : ℕ) : ℚ) = ((K : ℤ) : ℚ) by push_cast; rfl]
    exact pyRound_intCast K
  set I := K / 1000000 with hI
  set F := K % 1000000 with hF
  set fr := dropTrailingZeros (padDigits 6 F) with hfrdef
  have hfmt : formatSixStripped q =
      natDigits I ++ (if fr.isEmpty then [] else '.' :: fr) := by
    simp only [formatSixStripped]
    rw [hn, if_neg (Int.ofNat_nonneg K).not_lt, Int.natAbs_ofNat]
    simp
  have hfrd : ∀ c ∈ fr, ∃ r : ℕ, r < 10 ∧ c = Char.ofNat (48 + r) := by
    intro c hc
    exact padDigits_digits 6 F c (dropTrailingZeros_sub _ c hc)
  obtain ⟨j, hjd⟩ := dropTrailingZeros_decomp (padDigits 6 F)
  have hlen : fr.length + j = 6 := by
    have hl := congrArg List.length hjd
    simpa [padDigits_length] using hl.symm
  have hpf : parseNatD fr * 10 ^ j = F := by
    have h1 : parseNatD (padDigits 6 F) = F := by
      rw [parseNatD_padDigits]
      exact Nat.mod_eq_of_lt (show F < 10 ^ 6 from Nat.mod_lt _ (by norm_num))
    rw [hjd, parseNatD_append_zeros] at h1
    exact h1
  have hval : (I : ℚ) + (parseNatD fr : ℚ) / 10 ^ fr.length = q := by
    have hq6 : q = (K : ℚ) / 1000000 := by
      rw [eq_div_iff (show (1000000 : ℚ) ≠ 0 by norm_num)]
      exact hK
    have hKsplit : (K : ℚ) = 1000000 * (I : ℚ) + (F : ℚ) := by
      exact_mod_cast (Nat.div_add_mod K 1000000).symm
    have hFq : (F : ℚ) = (parseNatD fr : ℚ) * 10 ^ j := by
      exact_mod_cast hpf.symm
    have h10 : (10 : ℚ) ^ fr.length * 10 ^ j = 1000000 := by
      rw [← pow_add, hlen]
      norm_num
    rw [hq6, hKsplit, hFq, show (1000000 : ℚ) = 10 ^ fr.length * 10 ^ j from h10.symm]
    have hfl : (10 : ℚ) ^ fr.length ≠ 0 := by positivity
    have hjne : (10 : ℚ) ^ j ≠ 0 := by positivity
    field_simp
    ring
  have hnoComma : ∀ c ∈ formatSixStripped q, ¬c = ',' := by
    intro c hc
    rw [hfmt] at hc
    rcases List.mem_append.mp hc with h | h
    · obtain ⟨r, hr, rfl⟩ := natDigits_digits I c h
      exact digitChar_ne_comma hr
    · by_cases he : fr.isEmpty
      · rw [if_pos he] at h
        simp at h
      · rw [if_neg he] at h
        rcases List.mem_cons.mp h with h | h
        · subst h; decide
        · obtain ⟨r, hr, rfl⟩ := hfrd c h
          exact digitChar_ne_comma hr
  have hnoE : ∀ c ∈ formatSixStripped q, (!(c == 'e' || c == 'E')) = true := by
    intro c hc
    rw [hfmt] at hc
    rcases List.mem_append.mp hc with h | h
    · obtain ⟨r, hr, rfl⟩ := natDigits_digits I c h
      exact digitChar_not_eE hr
    · by_cases he : fr.isEmpty
      · rw [if_pos he] at h
        simp at h
      · rw [if_neg he] at h
        rcases List.mem_cons.mp h with h | h
        · subst h; decide
        · obtain ⟨r, hr, rfl⟩ := hfrd c h
          exact digitChar_not_eE hr
  have hmap : (formatSixStripped q).map (fun ch => if ch = ',' then '.' else ch) =
      formatSixStripped q := by
    conv_rhs => rw [← List.map_id (formatSixStripped q)]
    apply List.map_congr_left
    intro c hc
    simp only [id]
    rw [if_neg (hnoComma c hc)]
  have hPD : parseDecimal ((formatSixStripped q).map
      (fun ch => if ch = ',' then '.' else ch)) = some q := by
    rw [hmap]
    unfold parseDecimal
    rw [(takeWhile_all_eq _ hnoE).1, (takeWhile_all_eq _ hnoE).2]
    rw [hfmt]
    show parseMantissa (natDigits I ++ if fr.isEmpty then [] else '.' :: fr) = some q
    rw [parseMantissa_digits_dot I fr hfrd, hval]
  obtain ⟨c, cs, hnd⟩ : ∃ c cs, natDigits I = c :: cs := by
    rcases h : natDigits I with _ | ⟨c, cs⟩
    · exact absurd h (natDigits_ne_nil I)
    · exact ⟨c, cs, rfl⟩
  have hcd : c.isDigit = true := by
    obtain ⟨r, hr, rfl⟩ := natDigits_digits I c (by rw [hnd]; simp)
    exact digitChar_isDigit hr
  have hcons : formatSixStripped q = c :: (cs ++ (if fr.isEmpty then [] else '.' :: fr)) := by
    rw [hfmt, hnd]
    rfl
  rw [hcons] at hPD ⊢
  simp only [measureOne]
  rw [if_pos hcd, hPD]

theorem pyRound_nonneg (q : ℚ) (hq : 0 ≤ q) : 0 ≤ pyRound q := by
  have hf : 0 ≤ ⌊q⌋ := Int.floor_nonneg.mpr hq
  unfold pyRound
  dsimp only
  split_ifs <;> omega

theorem formatSixStripped_chars (q : ℚ) (hq : 0 ≤ q) :
    ∀ ch ∈ formatSixStripped q, ch ∈ decimalChars := by
  intro ch hch
  have hn : 0 ≤ pyRound (q * 1000000) := pyRound_nonneg _ (by positivity)
  simp only [formatSixStripped] at hch
  rw [if_neg hn.not_lt, List.nil_append] at hch
  rcases List.mem_append.mp hch with h | h
  · obtain ⟨r, hr, rfl⟩ := natDigits_digits _ ch h
    exact digitChar_mem_decimal hr
  · rcases h2 : (dropTrailingZeros (padDigits 6 ((pyRound (q * 1000000)).natAbs % 1000000))).isEmpty
    · rw [h2] at h
      simp only [Bool.false_eq_true, if_false] at h
      rcases List.mem_cons.mp h with h | h
      · subst h; decide
      · obtain ⟨r, hr, rfl⟩ := padDigits_digits _ _ ch (dropTrailingZeros_sub _ ch h)
        exact digitChar_mem_decimal hr
    · rw [h2] at h
      simp at h

theorem popUntil_append (c : Char) :
    ∀ pre l, c ∉ pre.map Prod.fst → popUntil c (pre ++ l) = popUntil c l := by
  intro pre
  induction pre with
  | nil => intro l _; rfl
  | cons p pre ih =>
    intro l h
    rw [List.cons_append, popUntil]
    rw [List.map_cons, List.mem_cons] at h
    rw [if_neg (by intro he; exact h (Or.inl he.symm))]
    exact ih l fun hm => h (Or.inr hm)

theorem sweepGo_chain (v : UnitK → ℚ) (inTime : Bool) (tail : List Char) :
    ∀ (ctx pre : List (Char × UnitK)) (found : Bool),
    (∀ p ∈ ctx, 0 ≤ v p.2 ∧ ((v p.2).den : ℕ) ∣ 1000000) →
    (∀ p ∈ ctx, p.1 ∉ decimalChars ∧ ¬(p.1 = 'T' ∧ inTime = false) ∧
      p.1 ∉ pre.map Prod.fst) →
    (ctx.map Prod.fst).Nodup →
    ∃ ctx' : List (Char × UnitK),
      sweepGo (pre ++ ctx) inTime found [] (piecesOf v ctx ++ tail) =
        Except.map (fun ms => msOf v ctx ++ ms)
          (sweepGo ctx' inTime (found || !(msOf v ctx).isEmpty) [] tail) := by
  intro ctx
  induction ctx with
  | nil =>
    intro pre found _ _ _
    refine ⟨pre, ?_⟩
    simp only [List.append_nil, piecesOf, msOf, List.nil_append, List.isEmpty_nil,
      Bool.not_true, Bool.or_false]
    rcases h : sweepGo pre inTime found [] tail with e | ms <;> simp [Except.map, h]
  | cons p rest ih =>
    obtain ⟨c, u⟩ := p
    intro pre found hv hc hnd
    have hcu := hc (c, u) (by simp)
    have hvu := hv (c, u) (by simp)
    rw [List.map_cons, List.nodup_cons] at hnd
    by_cases h0 : v u = 0
    · have hpe : piecesOf v ((c, u) :: rest) = piecesOf v rest := by
        simp [piecesOf, piece, h0]
      have hme : msOf v ((c, u) :: rest) = msOf v rest := by
        simp [msOf, h0]
      rw [hpe, hme, show pre ++ (c, u) :: rest = (pre ++ [(c, u)]) ++ rest by simp]
      apply ih
      · intro p hp; exact hv p (by simp [hp])
      · intro p hp
        refine ⟨(hc p (by simp [hp])).1, (hc p (by simp [hp])).2.1, ?_⟩
        rw [List.map_append, List.mem_append]
        rintro (h | h)
        · exact (hc p (by simp [hp])).2.2 h
        · simp only [List.map_cons, List.map_nil, List.mem_singleton] at h
          exact hnd.1 (List.mem_map.mpr ⟨p, hp, h⟩)
      · exact hnd.2
    · have hfc : ∀ ch ∈ formatSixStripped (v u), ch ∈ decimalChars :=
        formatSixStripped_chars _ hvu.1
      have hpw : piecesOf v ((c, u) :: rest) ++ tail =
          formatSixStripped (v u) ++ ([c] ++ (piecesOf v rest ++ tail)) := by
        simp [piecesOf, piece, h0, List.append_assoc]
      rw [hpw, sweepGo_decimal _ _ _ _ _ _ hfc, List.nil_append,
        show [c] ++ (piecesOf v rest ++ tail) = c :: (piecesOf v rest ++ tail) from rfl]
      simp only [sweepGo]
      rw [if_neg hcu.1, if_neg hcu.2.1, popUntil_append c pre _ hcu.2.2, popUntil,
        if_pos rfl]
      obtain ⟨ctx', hctx'⟩ := ih [] true
        (fun p hp => hv p (by simp [hp]))
        (fun p hp => ⟨(hc p (by simp [hp])).1, (hc p (by simp [hp])).2.1, by simp⟩)
        hnd.2
      rw [List.nil_append] at hctx'
      have hflag : (true || !(msOf v rest).isEmpty) = true := by simp
      rw [hflag] at hctx'
      refine ⟨ctx', ?_⟩
      have hms : msOf v ((c, u) :: rest) = (u, v u) :: msOf v rest := by
        simp [msOf, h0]
      have hflag2 : (found || !(msOf v ((c, u) :: rest)).isEmpty) = true := by
        rw [hms]; simp
      rw [hflag2, hms, measureOne_format (v u) hvu.1 hvu.2]
      simp only [Bind.bind, Except.bind]
      rw [hctx']
      rcases hX : sweepGo ctx' inTime true [] tail with e | ms <;>
        simp [hX, Except.map, Pure.pure, Except.pure, h0]

theorem msOf_mem (v : UnitK → ℚ) :
    ∀ ctx, ∀ p ∈ msOf v ctx, p.2 = v p.1 ∧ v p.1 ≠ 0 := by
  intro ctx
  induction ctx with
  | nil => intro p hp; simp [msOf] at hp
  | cons q rest ih =>
    obtain ⟨c, u⟩ := q
    intro p hp
    rw [msOf, List.mem_append] at hp
    rcases hp with h | h
    · by_cases h0 : v u = 0
      · rw [if_pos h0] at h; simp at h
      · rw [if_neg h0] at h
        rcases List.mem_singleton.mp h with rfl
        exact ⟨rfl, h0⟩
    · exact ih p h

theorem msOf_mem_of (v : UnitK → ℚ) :
    ∀ ctx (c : Char) (u : UnitK), (c, u) ∈ ctx → v u ≠ 0 → (u, v u) ∈ msOf v ctx := by
  intro ctx
  induction ctx with
  | nil => intro c u hc; simp at hc
  | cons q rest ih =>
    obtain ⟨c', u'⟩ := q
    intro c u hc h0
    rw [msOf, List.mem_append]
    rcases List.mem_cons.mp hc with h | h
    · obtain ⟨rfl, rfl⟩ := Prod.mk.injEq .. ▸ h
      · left
        rw [if_neg h0]
        simp
    · exact Or.inr (ih c u h h0)

theorem msOf_fst_sublist (v : UnitK → ℚ) :
    ∀ ctx, ((msOf v ctx).map Prod.fst).Sublist (ctx.map Prod.snd) := by
  intro ctx
  induction ctx with
  | nil => simp [msOf]
  | cons q rest ih =>
    obtain ⟨c, u⟩ := q
    rw [msOf, List.map_append, List.map_cons]
    by_cases h0 : v u = 0
    · rw [if_pos h0]
      exact List.Sublist.cons _ (by simpa using ih)
    · rw [if_neg h0]
      exact List.Sublist.cons₂ _ (by simpa using ih)

theorem msOf_nil_of_zero (v : UnitK → ℚ) :
    ∀ ctx, (∀ p ∈ ctx, v p.2 = 0) → msOf v ctx = [] := by
  intro ctx
  induction ctx with
  | nil => intro _; rfl
  | cons q rest ih =>
    obtain ⟨c, u⟩ := q
    intro h
    rw [msOf, if_pos (h (c, u) (by simp)), List.nil_append]
    exact ih fun p hp => h p (by simp [hp])

theorem msOf_ne_nil (v : UnitK → ℚ) (ctx : List (Char × UnitK)) (c : Char) (u : UnitK)
    (hc : (c, u) ∈ ctx) (h0 : v u ≠ 0) : msOf v ctx ≠ [] := by
  intro he
  have := msOf_mem_of v ctx c u hc h0
  rw [he] at this
  simp at this

theorem Duration.get_set_same (d : Duration) (u : UnitK) (q : ℚ) :
    (d.set u q).get u = q := by
  cases u <;> rfl

theorem Duration.get_set_ne (d : Duration) (u u' : UnitK) (q : ℚ) (h : u' ≠ u) :
    (d.set u' q).get u = d.get u := by
  cases u <;> cases u' <;> first | rfl | exact absurd rfl h

theorem Duration.get_default (u : UnitK) : (({} : Duration)).get u = 0 := by
  cases u <;> rfl

theorem foldl_set_get_not_mem :
    ∀ (ms : List (UnitK × ℚ)) (d0 : Duration) (u : UnitK), u ∉ ms.map Prod.fst →
      (ms.foldl (fun d p => d.set p.1 p.2) d0).get u = d0.get u := by
  intro ms
  induction ms with
  | nil => intro d0 u _; rfl
  | cons p rest ih =>
    intro d0 u h
    rw [List.map_cons, List.mem_cons] at h
    push_neg at h
    rw [List.foldl_cons, ih _ u h.2]
    exact Duration.get_set_ne d0 u p.1 p.2 fun he => h.1 he.symm

theorem foldl_set_get_mem :
    ∀ (ms : List (UnitK × ℚ)) (d0 : Duration) (u : UnitK) (q : ℚ), (u, q) ∈ ms →
      (ms.map Prod.fst).Nodup → (ms.foldl (fun d p => d.set p.1 p.2) d0).get u = q := by
  intro ms
  induction ms with
  | nil => intro d0 u q h; simp at h
  | cons p rest ih =>
    intro d0 u q hm hnd
    rw [List.map_cons, List.nodup_cons] at hnd
    rcases List.mem_cons.mp hm with h | h
    · have hp1 : p.1 = u := by rw [← h]
      have hnm : u ∉ rest.map Prod.fst := hp1 ▸ hnd.1
      rw [List.foldl_cons, foldl_set_get_not_mem rest _ u hnm, ← h,
        Duration.get_set_same]
    · rw [List.foldl_cons]
      exact ih _ u q h hnd.2

theorem Duration.eq_of_get {a b : Duration} (h : ∀ u, a.get u = b.get u) : a = b := by
  cases a
  cases b
  have h1 := h .years
  have h2 := h .months
  have h3 := h .weeks
  have h4 := h .days
  have h5 := h .hours
  have h6 := h .minutes
  have h7 := h .seconds
  simp only [Duration.get] at h1 h2 h3 h4 h5 h6 h7
  simp_all

theorem durationOf_msOf (d : Duration) :
    durationOf (msOf d.get dateCtx ++ msOf d.get timeCtx) = d := by
  apply Duration.eq_of_get
  intro u
  have hsub : ((msOf d.get dateCtx ++ msOf d.get timeCtx).map Prod.fst).Sublist
      (dateCtx.map Prod.snd ++ timeCtx.map Prod.snd) := by
    rw [List.map_append]
    exact (msOf_fst_sublist d.get dateCtx).append (msOf_fst_sublist d.get timeCtx)
  have hnd : ((msOf d.get dateCtx ++ msOf d.get timeCtx).map Prod.fst).Nodup :=
    List.Nodup.sublist hsub (by decide)
  by_cases h0 : d.get u = 0
  · have hnm : u ∉ (msOf d.get dateCtx ++ msOf d.get timeCtx).map Prod.fst := by
      intro hm
      obtain ⟨p, hp, hfst⟩ := List.mem_map.mp hm
      have hmm : p.2 = d.get p.1 ∧ d.get p.1 ≠ 0 := by
        rcases List.mem_append.mp hp with h | h
        · exact msOf_mem d.get dateCtx p h
        · exact msOf_mem d.get timeCtx p h
      rw [hfst] at hmm
      exact hmm.2 h0
    rw [durationOf, foldl_set_get_not_mem _ _ _ hnm, Duration.get_default, h0]
  · have hmem : (u, d.get u) ∈ msOf d.get dateCtx ++ msOf d.get timeCtx := by
      cases u with
      | years => exact List.mem_append_left _ (msOf_mem_of _ _ 'Y' _ (by simp [dateCtx]) h0)
      | months => exact List.mem_append_left _ (msOf_mem_of _ _ 'M' _ (by simp [dateCtx]) h0)
      | weeks => exact List.mem_append_left _ (msOf_mem_of _ _ 'W' _ (by simp [dateCtx]) h0)
      | days => exact List.mem_append_left _ (msOf_mem_of _ _ 'D' _ (by simp [dateCtx]) h0)
      | hours => exact List.mem_append_right _ (msOf_mem_of _ _ 'H' _ (by simp [timeCtx]) h0)
      | minutes => exact List.mem_append_right _ (msOf_mem_of _ _ 'M' _ (by simp [timeCtx]) h0)
      | seconds => exact List.mem_append_right _ (msOf_mem_of _ _ 'S' _ (by simp [timeCtx]) h0)
    rw [durationOf]
    exact foldl_set_get_mem _ _ u _ hmem hnd

theorem isoformat_shape (d : Duration) (h : ¬d.isZero) :
    d.isoformat = String.mk ('P' :: (piecesOf d.get dateCtx ++
      (if d.hours = 0 ∧ d.minutes = 0 ∧ d.seconds = 0 then []
       else 'T' :: piecesOf d.get timeCtx))) := by
  rw [Duration.isoformat, if_neg h]
  by_cases ht : d.hours = 0 ∧ d.minutes = 0 ∧ d.seconds = 0
  · rw [if_pos ht, if_pos ht]
    simp [piecesOf, dateCtx, Duration.get, List.append_assoc]
  · rw [if_neg ht, if_neg ht]
    simp [piecesOf, dateCtx, timeCtx, Duration.get, List.append_assoc]

theorem piecesOf_ne_nil (v : UnitK → ℚ) :
    ∀ ctx (c : Char) (u : UnitK), (c, u) ∈ ctx → v u ≠ 0 → piecesOf v ctx ≠ [] := by
  intro ctx
  induction ctx with
  | nil => intro c u hc; simp at hc
  | cons q rest ih =>
    obtain ⟨c', u'⟩ := q
    intro c u hc h0 he
    rw [piecesOf, List.append_eq_nil] at he
    rcases List.mem_cons.mp hc with h | h
    · obtain ⟨rfl, rfl⟩ := Prod.mk.injEq .. ▸ h
      rw [piece, if_neg h0, List.append_eq_nil] at he
      · exact absurd he.1.2 (by simp)
    · exact ih c u h h0 he.2

theorem piecesOf_last_upper (v : UnitK → ℚ) :
    ∀ ctx, (∀ p ∈ ctx, p.1.isUpper = true) →
      piecesOf v ctx = [] ∨
        ∃ c, (piecesOf v ctx).getLast? = some c ∧ c.isUpper = true := by
  intro ctx
  induction ctx with
  | nil => exact fun _ => Or.inl rfl
  | cons q rest ih =>
    obtain ⟨c, u⟩ := q
    intro h
    rcases ih (fun p hp => h p (by simp [hp])) with hnil | ⟨c', hc', hu'⟩
    · rw [piecesOf, hnil, List.append_nil]
      by_cases h0 : v u = 0
      · exact Or.inl (by rw [piece, if_pos h0])
      · refine Or.inr ⟨c, ?_, h (c, u) (by simp)⟩
        rw [piece, if_neg h0]
        exact List.getLast?_concat _
    · have hne : piecesOf v rest ≠ [] := by
        intro he
        rw [he] at hc'
        simp at hc'
      refine Or.inr ⟨c', ?_, hu'⟩
      rw [piecesOf, List.getLast?_append, hc']
      rfl

theorem parseMantissa_nonneg (l : List Char) (q : ℚ) (h : parseMantissa l = some q) :
    0 ≤ q := by
  unfold parseMantissa at h
  dsimp only at h
  split at h
  · split_ifs at h
    obtain rfl := Option.some.inj h
    positivity
  · split_ifs at h
    obtain rfl := Option.some.inj h
    positivity
  · exact absurd h (by simp)

theorem tenPowZ_nonneg (z : ℤ) : 0 ≤ tenPowZ z := by
  unfold tenPowZ
  split_ifs <;> positivity

theorem parseDecimal_nonneg (l : List Char) (q : ℚ) (h : parseDecimal l = some q) :
    0 ≤ q := by
  unfold parseDecimal at h
  split at h
  · exact parseMantissa_nonneg _ _ h
  · simp only [bind, Option.bind_eq_some, Pure.pure, Option.some.injEq] at h
    obtain ⟨a, ha, z, hz, rfl⟩ := h
    exact mul_nonneg (parseMantissa_nonneg _ _ ha) (tenPowZ_nonneg z)

theorem measureOne_nonneg (v : List Char) (q : ℚ) (h : measureOne v = .ok q) :
    0 ≤ q := by
  unfold measureOne at h
  split at h
  · exact absurd h (by simp)
  · split_ifs at h
    split at h
    · obtain rfl := Except.ok.inj h
      exact parseDecimal_nonneg _ _ (by assumption)
    · exact absurd h (by simp)

theorem exceptIf_ok {ε α : Type} (b : Bool) (e : ε) (x : Except ε α) (a : α)
    (h : (if b = true then Except.error e else x) = .ok a) : x = .ok a := by
  cases b
  · simpa using h
  · simp at h

theorem exceptBind_ok {ε α β : Type} (x : Except ε α) (f : α → Except ε β) (b : β)
    (h : (x >>= f) = .ok b) : ∃ a, x = .ok a ∧ f a = .ok b := by
  cases x with
  | error e => simp [Bind.bind, Except.bind] at h
  | ok a => exact ⟨a, rfl, by simpa [Bind.bind, Except.bind] using h⟩

theorem sweepGo_nonneg :
    ∀ (l : List Char) (ctx : List (Char × UnitK)) (inTime found : Bool)
      (value : List Char) (ms : List (UnitK × ℚ)),
      sweepGo ctx inTime found value l = .ok ms → ∀ p ∈ ms, 0 ≤ p.2 := by
  intro l
  induction l with
  | nil =>
    intro ctx inTime found value ms h
    unfold sweepGo at h
    split_ifs at h
    obtain rfl := Except.ok.inj h
    intro p hp
    simp at hp
  | cons c rest ih =>
    intro ctx inTime found value ms h
    unfold sweepGo at h
    split_ifs at h
    · exact ih _ _ _ _ _ h
    · exact ih _ _ _ _ _ h
    · split at h
      · exact absurd h (by simp)
      · obtain ⟨q, hq, h2⟩ := exceptBind_ok _ _ _ h
        obtain ⟨ms', hms', h3⟩ := exceptBind_ok _ _ _ h2
        have hq0 : 0 ≤ q := measureOne_nonneg _ _ hq
        obtain rfl := Except.ok.inj h3.symm
        intro p hp
        by_cases h0 : q = 0
        · rw [if_pos h0] at hp
          exact ih _ _ _ _ _ hms' p hp
        · rw [if_neg h0] at hp
          rcases List.mem_cons.mp hp with rfl | hp'
          · exact hq0
          · exact ih _ _ _ _ _ hms' p hp'

theorem toMeasurements_nonneg :
    ∀ (rcs : List RawComp) (inclusive : Bool) (ms : List (UnitK × ℚ)),
      toMeasurements inclusive rcs = .ok ms → ∀ p ∈ ms, 0 ≤ p.2 := by
  intro rcs
  induction rcs with
  | nil =>
    intro inclusive ms h
    obtain rfl := Except.ok.inj h
    intro p hp
    simp at hp
  | cons rc rest ih =>
    intro inclusive ms h
    obtain ⟨c, u, lim⟩ := rc
    unfold toMeasurements at h
    obtain ⟨q, hq, h2⟩ := exceptBind_ok _ _ _ h
    have hq0 : 0 ≤ q := measureOne_nonneg _ _ hq
    dsimp only at h2
    have h2' := exceptIf_ok _ _ _ _ h2
    obtain ⟨ms', hms', h3⟩ := exceptBind_ok _ _ _ h2'
    obtain rfl := Except.ok.inj h3.symm
    intro p hp
    by_cases h0 : q = 0
    · rw [if_pos h0] at hp
      exact ih _ _ hms' p hp
    · rw [if_neg h0] at hp
      rcases List.mem_cons.mp hp with rfl | hp'
      · exact hq0
      · exact ih _ _ hms' p hp'

theorem fromDuration_nonneg (s : List Char) (ms : List (UnitK × ℚ))
    (h : fromDuration s = .ok ms) : ∀ p ∈ ms, 0 ≤ p.2 := by
  unfold fromDuration at h
  split_ifs at h
  · exact sweepGo_nonneg _ _ _ _ _ _ h
  · dsimp only at h
    split_ifs at h
    all_goals
      obtain ⟨ms1, hms1, h2⟩ := exceptBind_ok _ _ _ h
      obtain ⟨ms2, hms2, h3⟩ := exceptBind_ok _ _ _ h2
      obtain rfl := Except.ok.inj h3.symm
      intro p hp
      rcases List.mem_append.mp hp with hp' | hp'
      · first
        | · obtain rfl := Except.ok.inj hms1
            simp at hp'
        | · obtain ⟨rcs, hrc, hto⟩ := exceptBind_ok _ _ _ hms1
            exact toMeasurements_nonneg _ _ _ hto p hp'
      · first
        | · obtain rfl := Except.ok.inj hms2
            simp at hp'
        | · obtain ⟨rcs, hrc, hto⟩ := exceptBind_ok _ _ _ hms2
            exact toMeasurements_nonneg _ _ _ hto p hp'

theorem foldl_set_get_cases :
    ∀ (ms : List (UnitK × ℚ)) (d0 : Duration) (u : UnitK),
      (ms.foldl (fun d p => d.set p.1 p.2) d0).get u = d0.get u ∨
        ∃ q, (u, q) ∈ ms ∧ (ms.foldl (fun d p => d.set p.1 p.2) d0).get u = q := by
  intro ms
  induction ms with
  | nil => intro d0 u; exact Or.inl rfl
  | cons p rest ih =>
    intro d0 u
    rw [List.foldl_cons]
    rcases ih (d0.set p.1 p.2) u with h | ⟨q, hq, he⟩
    · by_cases hp : p.1 = u
      · refine Or.inr ⟨p.2, ?_, ?_⟩
        · rw [show (u, p.2) = p from Prod.ext hp.symm rfl]
          exact List.mem_cons_self p rest
        · rw [h]
          subst hp
          exact Duration.get_set_same d0 p.1 p.2
      · exact Or.inl (by rw [h, Duration.get_set_ne _ _ _ _ hp])
    · exact Or.inr ⟨q, List.mem_cons_of_mem p hq, he⟩

theorem fromisoformat_nonneg (s : String) (d : Duration)
    (h : Duration.fromisoformat s = .ok d) : ∀ u, 0 ≤ d.get u := by
  unfold Duration.fromisoformat at h
  split at h
  · obtain rfl := Except.ok.inj h
    intro u
    rcases foldl_set_get_cases _ ({} : Duration) u with hc | ⟨q, hq, he⟩
    · rw [durationOf, hc, Duration.get_default]
    · rw [durationOf, he]
      exact fromDuration_nonneg _ _ (by assumption) (u, q) hq
  · exact absurd h (by simp)

/-- Claim C1 (counterexample): the seconds value `0.0000001` parses exactly,
but `isoformat` renders it at six fraction digits as `PT0S`, which reparses
to the zero duration, not the original value. -/
theorem claim_C1_counterexample :
    Duration.fromisoformat "PT0.0000001S" = .ok { seconds := 1/10000000 } ∧
    Duration.isoformat { seconds := (1/10000000 : ℚ) } = "PT0S" ∧
    Duration.fromisoformat "PT0S" = .ok {} ∧
    ({ seconds := (1/10000000 : ℚ) } : Duration) ≠ {} := by
  refine ⟨?_, ?_, ?_, ?_⟩
  · norm_num +decide [Duration.fromisoformat, fromDuration, lastIsUpper, fromDesignators,
      sweepGo, popUntil, dateCtx, timeCtx, decimalChars, measureOne, parseDecimal,
      parseMantissa, parseNatD, durationOf, Duration.set, Char.isDigit, Char.isUpper,
      List.takeWhile, List.dropWhile, beq_iff_eq, Bool.or_eq_true, Bool.not_eq_true',
      Bind.bind, Except.bind, Pure.pure, Except.pure]
    simp
    norm_num
  · have h1 : (1/10000000 : ℚ) * 1000000 = 1/10 := by norm_num
    have hpr : pyRound (1/10 : ℚ) = 0 := by
      unfold pyRound
      have hf : ⌊(1/10 : ℚ)⌋ = 0 := by
        rw [Int.floor_eq_zero_iff]
        constructor <;> norm_num
      dsimp only
      rw [hf]
      norm_num
    have hfmt : formatSixStripped (1/10000000 : ℚ) = ['0'] := by
      simp only [formatSixStripped, h1, hpr]
      decide
    rw [Duration.isoformat, if_neg (by norm_num [Duration.isZero])]
    norm_num [piece, hfmt]
  · norm_num +decide [Duration.fromisoformat, fromDuration, lastIsUpper, fromDesignators,
      sweepGo, popUntil, dateCtx, timeCtx, decimalChars, measureOne, parseDecimal,
      parseMantissa, parseNatD, durationOf, Duration.set, Char.isDigit, Char.isUpper,
      List.takeWhile, List.dropWhile, beq_iff_eq, Bool.or_eq_true, Bool.not_eq_true',
      Bind.bind, Except.bind, Pure.pure, Except.pure]
    simp
  · intro h
    have hs := congrArg Duration.seconds h
    norm_num at hs

/-- Claim C1 (amended): for any string accepted by `fromisoformat`, if every
field of the resulting `Duration` is exactly representable at six fraction
digits (its denominator divides `10^6`, which `%.6f` preserves), then
formatting and reparsing yields the same `Duration`.  Without that proviso
the claim fails: the rendering rounds to six fraction digits
(`claim_C1_counterexample`). -/
theorem claim_C1_roundtrip (s : String) (d : Duration)
    (hp : Duration.fromisoformat s = .ok d)
    (hden : ∀ u : UnitK, ((d.get u).den : ℕ) ∣ 1000000) :
    Duration.fromisoformat d.isoformat = .ok d := by
  have hnn : ∀ u, 0 ≤ d.get u := fromisoformat_nonneg s d hp
  by_cases hz : d.isZero
  · have hd0 : d = {} := by
      apply Duration.eq_of_get
      intro u
      rw [Duration.get_default]
      obtain ⟨h1, h2, h3, h4, h5, h6, h7⟩ := hz
      cases u <;> assumption
    rw [hd0, show Duration.isoformat {} = "P0D" by rw [Duration.isoformat, if_pos (by
      exact ⟨rfl, rfl, rfl, rfl, rfl, rfl, rfl⟩)]]
    norm_num +decide [Duration.fromisoformat, fromDuration, lastIsUpper, fromDesignators,
      sweepGo, popUntil, dateCtx, timeCtx, decimalChars, measureOne, parseDecimal,
      parseMantissa, parseNatD, durationOf, Duration.set, Char.isDigit, Char.isUpper,
      List.takeWhile, List.dropWhile, beq_iff_eq, Bool.or_eq_true, Bool.not_eq_true',
      Bind.bind, Except.bind, Pure.pure, Except.pure]
    simp
  · set v := d.get with hv
    have hvd : ∀ p ∈ dateCtx, 0 ≤ v p.2 ∧ ((v p.2).den : ℕ) ∣ 1000000 :=
      fun p _ => ⟨hnn p.2, hden p.2⟩
    have hvt : ∀ p ∈ timeCtx, 0 ≤ v p.2 ∧ ((v p.2).den : ℕ) ∣ 1000000 :=
      fun p _ => ⟨hnn p.2, hden p.2⟩
    by_cases ht : d.hours = 0 ∧ d.minutes = 0 ∧ d.seconds = 0
    · -- no time segment
      have hexd : ∃ c u, (c, u) ∈ dateCtx ∧ v u ≠ 0 := by
        by_contra hno
        push_neg at hno
        exact hz ⟨hno 'Y' .years (by simp [dateCtx]), hno 'M' .months (by simp [dateCtx]),
          hno 'W' .weeks (by simp [dateCtx]), hno 'D' .days (by simp [dateCtx]),
          ht.1, ht.2.1, ht.2.2⟩
      obtain ⟨cd, ud, hcd, hud⟩ := hexd
      have hshape : d.isoformat = String.mk ('P' :: (piecesOf v dateCtx ++ [])) := by
        rw [isoformat_shape d hz, if_pos ht]
      obtain ⟨ctx1, hchain1⟩ := sweepGo_chain v false [] dateCtx [] false hvd
        (by decide) (by decide)
      rw [List.nil_append] at hchain1
      have hfl : (false || !(msOf v dateCtx).isEmpty) = true := by
        rcases hM : msOf v dateCtx with _ | ⟨a, as⟩
        · exact absurd hM (msOf_ne_nil v dateCtx cd ud hcd hud)
        · rfl
      rw [hfl] at hchain1
      have hend : sweepGo ctx1 false true [] [] = .ok [] := by
        rw [sweepGo]
        rfl
      rw [hend] at hchain1
      have hlast : ∃ c', (piecesOf v dateCtx).getLast? = some c' ∧ c'.isUpper = true := by
        rcases piecesOf_last_upper v dateCtx (by decide) with hnil | h
        · exact absurd hnil (piecesOf_ne_nil v dateCtx cd ud hcd hud)
        · exact h
      obtain ⟨c', hc', hcu⟩ := hlast
      have hupper : lastIsUpper ('P' :: (piecesOf v dateCtx ++ [])) = true := by
        rw [lastIsUpper, show ('P' :: (piecesOf v dateCtx ++ [])) =
          ['P'] ++ (piecesOf v dateCtx ++ []) from rfl, List.getLast?_append,
          List.getLast?_append, hc']
        exact hcu
      have hFD : fromDuration ('P' :: (piecesOf v dateCtx ++ [])) =
          .ok (msOf v dateCtx ++ []) := by
        rw [fromDuration, if_neg (by simp), if_pos hupper]
        show fromDesignators (piecesOf v dateCtx ++ []) = _
        rw [fromDesignators, hchain1]
        rfl
      rw [hshape, Duration.fromisoformat]
      have hdata : (String.mk ('P' :: (piecesOf v dateCtx ++ []))).data =
          'P' :: (piecesOf v dateCtx ++ []) := rfl
      rw [hdata, hFD]
      have hmsT : msOf v timeCtx = [] := by
        apply msOf_nil_of_zero
        intro p hp'
        simp only [timeCtx, List.mem_cons, List.not_mem_nil, or_false] at hp'
        rcases hp' with rfl | rfl | rfl
        · exact ht.1
        · exact ht.2.1
        · exact ht.2.2
      have : durationOf (msOf v dateCtx ++ []) = d := by
        rw [show (msOf v dateCtx ++ []) = msOf v dateCtx ++ msOf v timeCtx by
          rw [hmsT]]
        exact durationOf_msOf d
      show Except.ok (durationOf (msOf v dateCtx ++ [])) = Except.ok d
      rw [this]
    · -- time segment present
      have hext : ∃ c u, (c, u) ∈ timeCtx ∧ v u ≠ 0 := by
        by_contra hno
        push_neg at hno
        exact ht ⟨hno 'H' .hours (by simp [timeCtx]), hno 'M' .minutes (by simp [timeCtx]),
          hno 'S' .seconds (by simp [timeCtx])⟩
      obtain ⟨ct, ut, hct, hut⟩ := hext
      have hshape : d.isoformat = String.mk ('P' :: (piecesOf v dateCtx ++
          ('T' :: piecesOf v timeCtx))) := by
        rw [isoformat_shape d hz, if_neg ht]
      obtain ⟨ctx1, hchain1⟩ := sweepGo_chain v false ('T' :: piecesOf v timeCtx)
        dateCtx [] false hvd (by decide) (by decide)
      rw [List.nil_append] at hchain1
      obtain ⟨ctx2, hchain2⟩ := sweepGo_chain v true [] timeCtx []
        (false || !(msOf v dateCtx).isEmpty) hvt (by decide) (by decide)
      rw [List.nil_append, List.append_nil] at hchain2
      have hstep : sweepGo ctx1 false (false || !(msOf v dateCtx).isEmpty) []
          ('T' :: piecesOf v timeCtx) =
          sweepGo timeCtx true (false || !(msOf v dateCtx).isEmpty) []
            (piecesOf v timeCtx) := by
        rw [sweepGo, if_neg (by decide), if_pos ⟨rfl, rfl⟩, if_pos rfl]
      have hfl2 : ((false || !(msOf v dateCtx).isEmpty) || !(msOf v timeCtx).isEmpty) =
          true := by
        rcases hM : msOf v timeCtx with _ | ⟨a, as⟩
        · exact absurd hM (msOf_ne_nil v timeCtx ct ut hct hut)
        · simp
      rw [hfl2] at hchain2
      have hend : sweepGo ctx2 true true [] [] = .ok [] := by
        rw [sweepGo]
        rfl
      rw [hend] at hchain2
      have htp : ∃ c', (piecesOf v timeCtx).getLast? = some c' ∧ c'.isUpper = true := by
        rcases piecesOf_last_upper v timeCtx (by decide) with hnil | h
        · exact absurd hnil (piecesOf_ne_nil v timeCtx ct ut hct hut)
        · exact h
      obtain ⟨c', hc', hcu⟩ := htp
      have hupper : lastIsUpper ('P' :: (piecesOf v dateCtx ++
          ('T' :: piecesOf v timeCtx))) = true := by
        rw [lastIsUpper, show ('P' :: (piecesOf v dateCtx ++ ('T' :: piecesOf v timeCtx))) =
          ['P'] ++ (piecesOf v dateCtx ++ ('T' :: piecesOf v timeCtx)) from rfl,
          List.getLast?_append, List.getLast?_append,
          show ('T' :: piecesOf v timeCtx) = ['T'] ++ piecesOf v timeCtx from rfl,
          List.getLast?_append, hc']
        exact hcu
      have hFD : fromDuration ('P' :: (piecesOf v dateCtx ++
          ('T' :: piecesOf v timeCtx))) =
          .ok (msOf v dateCtx ++ (msOf v timeCtx ++ [])) := by
        rw [fromDuration, if_neg (by simp), if_pos hupper]
        show fromDesignators (piecesOf v dateCtx ++ ('T' :: piecesOf v timeCtx)) = _
        rw [fromDesignators, hchain1, hstep, hchain2]
        rfl
      rw [hshape, Duration.fromisoformat]
      have hdata : (String.mk ('P' :: (piecesOf v dateCtx ++
          ('T' :: piecesOf v timeCtx)))).data =
          'P' :: (piecesOf v dateCtx ++ ('T' :: piecesOf v timeCtx)) := rfl
      rw [hdata, hFD]
      have : durationOf (msOf v dateCtx ++ (msOf v timeCtx ++ [])) = d := by
        rw [List.append_nil]
        exact durationOf_msOf d
      show Except.ok (durationOf (msOf v dateCtx ++ (msOf v timeCtx ++ []))) = Except.ok d
      rw [this]

theorem claim_C1_roundtrip_witness :
    Duration.fromisoformat (Duration.isoformat { seconds := 1 }) =
      .ok { seconds := 1 } :=
  claim_C1_roundtrip "PT1S" { seconds := 1 }
    (by
      norm_num +decide [Duration.fromisoformat, fromDuration, lastIsUpper, fromDesignators,
        sweepGo, popUntil, dateCtx, timeCtx, decimalChars, measureOne, parseDecimal,
        parseMantissa, parseNatD, durationOf, Duration.set, Char.isDigit, Char.isUpper,
        List.takeWhile, List.dropWhile, beq_iff_eq, Bool.or_eq_true, Bool.not_eq_true',
        Bind.bind, Except.bind, Pure.pure, Except.pure]
      simp)
    (by intro u; cases u <;> decide)
